import Mathlib

/-!
# go-tar2headers: a shallow embedding

Embedding of `tar2hdrs.go` (type and format registries, `HeaderNew`,
`TarReaderToHeaders`), of `writer/json/std/jwtr.go` (`WriterToHeadersWriter`)
and of `cmd/tar2headers/main.go` (`sub`, `main`), together with the parts of
the Go standard library those functions call (`archive/tar`'s
`Header.FileInfo`, `path.Base`, `path.Clean`, `io/fs`'s `FileMode`,
`bufio.Writer`, `json.Encoder.Encode`, `log.Printf`).

Conventions.
* A Go `string` or `[]byte` is a list of bytes, `List Nat`; `ascii` turns a
  literal into its bytes.
* A Go `error` is `Option Error`, `none` being `nil`.
* `int64` and `int` fields are `Int`; the one narrowing conversion of the
  program (`fs.FileMode(h.Mode)`, int64 to uint32) is written `% 2^32`.
* A Go `map` that may be `nil` is an `Option` of an association list,
  `none` being the nil map.
-/

namespace Tar2Hdrs

/-! ## Strings and errors -/

/-- Go `string` / `[]byte`: a sequence of bytes. -/
abbrev GoString := List Nat

/-- Bytes of an ASCII literal. -/
def ascii (s : String) : GoString := s.toList.map Char.toNat

/-- The Go `error` values the program can see. `other` stands for any error
produced by the archive decoder, the JSON encoder or the output writer. -/
inductive Error where
  | ErrInvalidTypeFlag
  | EOF
  | Canceled
  | DeadlineExceeded
  | ErrShortWrite
  | other (code : Nat)
  deriving DecidableEq, Repr

/-- Value of `time.Time`: wall and monotonic words, both zero in the zero value. -/
structure Time where
  wall : Nat
  ext : Int
  deriving DecidableEq, Repr

/-! ## `archive/tar` constants and the raw header -/

namespace tar

def TypeReg : Nat := 48            -- '0'
def TypeLink : Nat := 49           -- '1'
def TypeSymlink : Nat := 50        -- '2'
def TypeChar : Nat := 51           -- '3'
def TypeBlock : Nat := 52          -- '4'
def TypeDir : Nat := 53            -- '5'
def TypeFifo : Nat := 54           -- '6'
def TypeCont : Nat := 55           -- '7'
def TypeXHeader : Nat := 120       -- 'x'
def TypeXGlobalHeader : Nat := 103 -- 'g'
def TypeGNUSparse : Nat := 83      -- 'S'
def TypeGNULongName : Nat := 76    -- 'L'
def TypeGNULongLink : Nat := 75    -- 'K'

def FormatUnknown : Int := 0
def FormatUSTAR : Int := 2
def FormatPAX : Int := 4
def FormatGNU : Int := 8

/-- Raw header `tar.Header`. -/
structure Header where
  Typeflag : Nat
  Name : GoString
  Linkname : GoString
  Size : Int
  Mode : Int
  Uid : Int
  Gid : Int
  Uname : GoString
  Gname : GoString
  ModTime : Time
  AccessTime : Time
  ChangeTime : Time
  Devmajor : Int
  Devminor : Int
  PAXRecords : Option (List (GoString × GoString))
  Format : Int
  deriving DecidableEq, Repr

def c_ISUID : Nat := 0o4000
def c_ISGID : Nat := 0o2000
def c_ISVTX : Nat := 0o1000
def c_ISDIR : Nat := 0o40000
def c_ISFIFO : Nat := 0o10000
def c_ISREG : Nat := 0o100000
def c_ISLNK : Nat := 0o120000
def c_ISBLK : Nat := 0o60000
def c_ISCHR : Nat := 0o20000
def c_ISSOCK : Nat := 0o140000

end tar

/-! ## `io/fs.FileMode` -/

namespace fs

/-- Type `fs.FileMode` is a `uint32`. -/
abbrev FileMode := Nat

def ModeDir : FileMode := 2 ^ 31
def ModeAppend : FileMode := 2 ^ 30
def ModeExclusive : FileMode := 2 ^ 29
def ModeTemporary : FileMode := 2 ^ 28
def ModeSymlink : FileMode := 2 ^ 27
def ModeDevice : FileMode := 2 ^ 26
def ModeNamedPipe : FileMode := 2 ^ 25
def ModeSocket : FileMode := 2 ^ 24
def ModeSetuid : FileMode := 2 ^ 23
def ModeSetgid : FileMode := 2 ^ 22
def ModeCharDevice : FileMode := 2 ^ 21
def ModeSticky : FileMode := 2 ^ 20
def ModeIrregular : FileMode := 2 ^ 19
def ModePerm : FileMode := 0o777

/-- Method `FileMode.IsDir`: `m&ModeDir != 0`. -/
def FileMode.IsDir (m : FileMode) : Bool := m &&& ModeDir != 0

/-- Method `FileMode.Perm`: `m & ModePerm`. -/
def FileMode.Perm (m : FileMode) : FileMode := m &&& ModePerm

/-- First loop of `FileMode.String`: letter `i` of `"dalTLDpSugct?"` is
written when bit `31 - i` is set. -/
def FileMode.typeLetters (m : FileMode) : GoString :=
  ((ascii "dalTLDpSugct?").enum.filter (fun p => m &&& 2 ^ (32 - 1 - p.1) != 0)).map
    (fun p => p.2)

/-- Second loop of `FileMode.String`: the nine permission letters. -/
def FileMode.permLetters (m : FileMode) : GoString :=
  (ascii "rwxrwxrwx").enum.map
    (fun p => if m &&& 2 ^ (9 - 1 - p.1) != 0 then p.2 else 45)

/-- Method `FileMode.String`. -/
def FileMode.String (m : FileMode) : GoString :=
  let t := FileMode.typeLetters m
  (if t.length = 0 then [45] else t) ++ FileMode.permLetters m

end fs

/-! ## `path.Base` and `path.Clean` -/

namespace path

/-- Strip trailing slashes: `for len(path) > 0 && path[len(path)-1] == '/'`. -/
def stripTrailingSlashes (p : GoString) : GoString :=
  (p.reverse.dropWhile (fun c => c == 47)).reverse

/-- Index one past the last `'/'` of `p`, as `LastIndexByteString(p, '/') + 1`
(`0` when there is none). -/
def afterLastSlash : GoString → Nat
  | [] => 0
  | c :: t =>
    if t.contains 47 then afterLastSlash t + 1
    else if c == 47 then 1 else 0

/-- Function `path.Base`. -/
def Base (p : GoString) : GoString :=
  if p = [] then [46]
  else
    let p := stripTrailingSlashes p
    let p := p.drop (afterLastSlash p)
    if p = [] then [47] else p

/-- Type `lazybuf` of `path.Clean`: the bytes written so far are `buf[0:w]`. -/
structure lazybuf where
  buf : GoString
  w : Nat
  deriving DecidableEq, Repr

def lazybuf.index (b : lazybuf) (i : Nat) : Nat := b.buf.getD i 0

def lazybuf.append (b : lazybuf) (c : Nat) : lazybuf :=
  { buf := b.buf.take b.w ++ [c], w := b.w + 1 }

def lazybuf.string (b : lazybuf) : GoString := b.buf.take b.w

/-- Backtracking loop of the `..` case, entered after `out.w--`:
`for out.w > dotdot && out.index(out.w) != '/' { out.w-- }`. -/
def backtrack (b : lazybuf) (dotdot : Nat) : Nat → Nat
  | 0 => 0
  | w + 1 =>
    if w + 1 > dotdot && b.index (w + 1) != 47 then backtrack b dotdot w else w + 1

/-- Copy loop of the default case:
`for ; r < n && path[r] != '/'; r++ { out.append(path[r]) }`. -/
def copyElem (p : GoString) : Nat → Nat → lazybuf → Nat × lazybuf
  | 0, r, out => (r, out)
  | fuel + 1, r, out =>
    if r < p.length && p.getD r 0 != 47 then
      copyElem p fuel (r + 1) (out.append (p.getD r 0))
    else (r, out)

/-- Main loop `for r < n` of `path.Clean`. Every iteration advances `r`, so
`n` rounds of fuel are enough. -/
def cleanLoop (p : GoString) (rooted : Bool) : Nat → Nat → Nat → lazybuf → lazybuf
  | 0, _, _, out => out
  | fuel + 1, r, dotdot, out =>
    let n := p.length
    if r < n then
      if p.getD r 0 == 47 then
        cleanLoop p rooted fuel (r + 1) dotdot out
      else if p.getD r 0 == 46 && (r + 1 == n || p.getD (r + 1) 0 == 47) then
        cleanLoop p rooted fuel (r + 1) dotdot out
      else if p.getD r 0 == 46 && p.getD (r + 1) 0 == 46 &&
          (r + 2 == n || p.getD (r + 2) 0 == 47) then
        if out.w > dotdot then
          cleanLoop p rooted fuel (r + 2) dotdot
            { out with w := backtrack out dotdot (out.w - 1) }
        else if !rooted then
          let out := if out.w > 0 then out.append 47 else out
          let out := (out.append 46).append 46
          cleanLoop p rooted fuel (r + 2) out.w out
        else
          cleanLoop p rooted fuel (r + 2) dotdot out
      else
        let out := if rooted && out.w != 1 || !rooted && out.w != 0 then out.append 47 else out
        let (r, out) := copyElem p n r out
        cleanLoop p rooted fuel r dotdot out
    else out

/-- Function `path.Clean`. -/
def Clean (p : GoString) : GoString :=
  if p = [] then [46]
  else
    let rooted := p.getD 0 0 == 47
    let out : lazybuf := { buf := [], w := 0 }
    let out := cleanLoop p rooted p.length (if rooted then 1 else 0) (if rooted then 1 else 0)
      (if rooted then out.append 47 else out)
    if out.w == 0 then [46] else out.string

end path

/-! ## `tar.Header.FileInfo` -/

namespace tar

/-- Go `a &^ b` on `uint32`. -/
def bitClear32 (a b : Nat) : Nat := a &&& (0xFFFFFFFF ^^^ b)

/-- Method `headerFileInfo.Mode`. -/
def headerFileInfo.Mode (h : Header) : fs.FileMode :=
  -- `fs.FileMode(fi.h.Mode)`: int64 to uint32
  let m32 : Nat := (h.Mode % 2 ^ 32).toNat
  -- `fi.h.Mode & c`: on the int64 itself
  let m64 : Nat := (h.Mode % 2 ^ 64).toNat
  let mode := fs.FileMode.Perm m32
  let mode := if m64 &&& c_ISUID != 0 then mode ||| fs.ModeSetuid else mode
  let mode := if m64 &&& c_ISGID != 0 then mode ||| fs.ModeSetgid else mode
  let mode := if m64 &&& c_ISVTX != 0 then mode ||| fs.ModeSticky else mode
  let m := bitClear32 m32 0o7777
  let mode :=
    if m = c_ISDIR then mode ||| fs.ModeDir
    else if m = c_ISFIFO then mode ||| fs.ModeNamedPipe
    else if m = c_ISLNK then mode ||| fs.ModeSymlink
    else if m = c_ISBLK then mode ||| fs.ModeDevice
    else if m = c_ISCHR then mode ||| fs.ModeDevice ||| fs.ModeCharDevice
    else if m = c_ISSOCK then mode ||| fs.ModeSocket
    else mode
  let mode :=
    if h.Typeflag = TypeSymlink then mode ||| fs.ModeSymlink
    else if h.Typeflag = TypeChar then mode ||| fs.ModeDevice ||| fs.ModeCharDevice
    else if h.Typeflag = TypeBlock then mode ||| fs.ModeDevice
    else if h.Typeflag = TypeDir then mode ||| fs.ModeDir
    else if h.Typeflag = TypeFifo then mode ||| fs.ModeNamedPipe
    else mode
  mode

/-- Method `headerFileInfo.IsDir`: `fi.Mode().IsDir()`. -/
def headerFileInfo.IsDir (h : Header) : Bool := fs.FileMode.IsDir (headerFileInfo.Mode h)

/-- Method `headerFileInfo.Name`: the base name of the file. -/
def headerFileInfo.Name (h : Header) : GoString :=
  if headerFileInfo.IsDir h then path.Base (path.Clean h.Name)
  else path.Base h.Name

end tar

/-! ## `tar2hdrs.go`: registries -/

/-- Type `TypeFlag` is a `byte`. -/
abbrev TypeFlag := Nat

def TypeFlagReg : TypeFlag := tar.TypeReg
def TypeFlagLink : TypeFlag := tar.TypeLink
def TypeFlagSymlink : TypeFlag := tar.TypeSymlink
def TypeFlagChar : TypeFlag := tar.TypeChar
def TypeFlagBlock : TypeFlag := tar.TypeBlock
def TypeFlagDir : TypeFlag := tar.TypeDir
def TypeFlagFifo : TypeFlag := tar.TypeFifo
def TypeFlagCont : TypeFlag := tar.TypeCont
def TypeFlagXHeader : TypeFlag := tar.TypeXHeader
def TypeFlagXGlobalHeader : TypeFlag := tar.TypeXGlobalHeader
def TypeFlagGNUSparse : TypeFlag := tar.TypeGNUSparse
def TypeFlagGNULongName : TypeFlag := tar.TypeGNULongName
def TypeFlagGNULongLink : TypeFlag := tar.TypeGNULongLink

/-- Map `TypeFlagMap`, as its list of key/value pairs. -/
def TypeFlagMap : List (Nat × TypeFlag) :=
  [ (tar.TypeReg, TypeFlagReg),
    (tar.TypeLink, TypeFlagLink),
    (tar.TypeSymlink, TypeFlagSymlink),
    (tar.TypeChar, TypeFlagChar),
    (tar.TypeBlock, TypeFlagBlock),
    (tar.TypeDir, TypeFlagDir),
    (tar.TypeFifo, TypeFlagFifo),
    (tar.TypeCont, TypeFlagCont),
    (tar.TypeXHeader, TypeFlagXHeader),
    (tar.TypeXGlobalHeader, TypeFlagXGlobalHeader),
    (tar.TypeGNUSparse, TypeFlagGNUSparse),
    (tar.TypeGNULongName, TypeFlagGNULongName),
    (tar.TypeGNULongLink, TypeFlagGNULongLink) ]

/-- Map `TypeFlagDisplayMap`. -/
def TypeFlagDisplayMap : List (TypeFlag × GoString) :=
  [ (TypeFlagReg, ascii "Regular File"),
    (TypeFlagLink, ascii "Hard Link"),
    (TypeFlagSymlink, ascii "Symbolic Link"),
    (TypeFlagChar, ascii "Character Device"),
    (TypeFlagBlock, ascii "Block Device"),
    (TypeFlagDir, ascii "Directory"),
    (TypeFlagFifo, ascii "FIFO"),
    (TypeFlagCont, ascii "(reserved)"),
    (TypeFlagXHeader, ascii "Non-global Key/Val records(PAX)"),
    (TypeFlagXGlobalHeader, ascii "Global Key/Val records(PAX)"),
    (TypeFlagGNUSparse, ascii "Sparse File"),
    (TypeFlagGNULongName, ascii "Long Path"),
    (TypeFlagGNULongLink, ascii "Long Link Name") ]

/-- Method `TypeFlag.String`: `TypeFlagDisplayMap[f]`, the empty string for a
missing key. -/
def TypeFlag.String (f : TypeFlag) : GoString := (TypeFlagDisplayMap.lookup f).getD []

/-- Function `TypeFlagFromByte`. -/
def TypeFlagFromByte (b : Nat) : TypeFlag × Option Error :=
  match TypeFlagMap.lookup b with
  | some val => (val, none)
  | none => (0, some Error.ErrInvalidTypeFlag)

/-- Type `Format` is an `int`. -/
abbrev Format := Int

def FormatUnknown : Format := tar.FormatUnknown
def FormatUSTAR : Format := tar.FormatUSTAR
def FormatPAX : Format := tar.FormatPAX
def FormatGNU : Format := tar.FormatGNU

/-- Map `FormatMap`. -/
def FormatMap : List (Int × Format) :=
  [ (tar.FormatUnknown, FormatUnknown),
    (tar.FormatUSTAR, FormatUSTAR),
    (tar.FormatPAX, FormatPAX),
    (tar.FormatGNU, FormatGNU) ]

/-- Map `FormatDisplayMap`. -/
def FormatDisplayMap : List (Format × GoString) :=
  [ (FormatUnknown, ascii "Unknown"),
    (FormatUSTAR, ascii "USTAR"),
    (FormatPAX, ascii "PAX"),
    (FormatGNU, ascii "GNU") ]

/-- Method `Format.String`. -/
def Format.String (f : Format) : GoString := (FormatDisplayMap.lookup f).getD []

/-- Function `FormatNew`. -/
def FormatNew (f : Int) : Format :=
  match FormatMap.lookup f with
  | some val => val
  | none => FormatUnknown

/-! ## `tar2hdrs.go`: the record and `HeaderNew` -/

/-- Record `Header`. -/
structure Header where
  TypeFlag : TypeFlag
  TypeString : GoString
  Name : GoString
  Linkname : GoString
  Basename : GoString
  Hidden : Bool
  Size : Int
  Mode : Int
  Uid : Int
  Gid : Int
  Uname : GoString
  Gname : GoString
  FileMode : fs.FileMode
  FileModeString : GoString
  ModTime : Time
  AccessTime : Time
  ChangeTime : Time
  Devmajor : Int
  Devminor : Int
  PAXRecords : Option (List (GoString × GoString))
  Format : Format
  deriving DecidableEq, Repr

/-- Zero value of `Header` (`var ret Header`). -/
def Header.zero : Header :=
  { TypeFlag := 0, TypeString := [], Name := [], Linkname := [], Basename := [],
    Hidden := false, Size := 0, Mode := 0, Uid := 0, Gid := 0, Uname := [], Gname := [],
    FileMode := 0, FileModeString := [], ModTime := ⟨0, 0⟩, AccessTime := ⟨0, 0⟩,
    ChangeTime := ⟨0, 0⟩, Devmajor := 0, Devminor := 0, PAXRecords := none, Format := 0 }

/-- Function `strings.HasPrefix`. -/
def HasPrefix (s pre : GoString) : Bool := pre.isPrefixOf s

/-- Function `HeaderNew`. The assignments to `ret` are gathered in one record;
each field is assigned once in the source. -/
def HeaderNew (t : tar.Header) : Header × Option Error :=
  match TypeFlagFromByte t.Typeflag with
  | (_, some e) => (Header.zero, some e)
  | (typ, none) =>
    let fmode : fs.FileMode := tar.headerFileInfo.Mode t
    let basename : GoString := tar.headerFileInfo.Name t
    ({ TypeFlag := typ,
       TypeString := TypeFlag.String typ,
       FileMode := fmode,
       FileModeString := fs.FileMode.String fmode,
       Name := t.Name,
       Linkname := t.Linkname,
       Basename := basename,
       Hidden := HasPrefix basename (ascii "."),
       Size := t.Size,
       Mode := t.Mode,
       Uid := t.Uid,
       Gid := t.Gid,
       Uname := t.Uname,
       Gname := t.Gname,
       ModTime := t.ModTime,
       AccessTime := t.AccessTime,
       ChangeTime := t.ChangeTime,
       Devmajor := t.Devmajor,
       Devminor := t.Devminor,
       PAXRecords := t.PAXRecords,
       Format := FormatNew t.Format }, none)

/-- The 13 type codes registered in `TypeFlagMap`. -/
def registeredTypeCodes : List Nat := TypeFlagMap.map (fun p => p.1)

/-- A raw header used in examples: every field zero except the type code, the
name, the size and the mode. -/
def rawHeader (typeflag : Nat) (name : GoString) (size mode : Int) : tar.Header :=
  { Typeflag := typeflag, Name := name, Linkname := [], Size := size, Mode := mode,
    Uid := 0, Gid := 0, Uname := [], Gname := [], ModTime := ⟨0, 0⟩, AccessTime := ⟨0, 0⟩,
    ChangeTime := ⟨0, 0⟩, Devmajor := 0, Devminor := 0, PAXRecords := none, Format := 0 }

/-! ## `tar.Reader` and `TarReaderToHeaders` -/

namespace tar

/-- The decoder `tar.Reader`, seen through its method `Next`: `script i` is
what the call number `i + 1` returns (a header, or an error, `io.EOF`
included), and `calls` counts the calls made so far. -/
structure Reader where
  script : Nat → Except Error Header
  calls : Nat

/-- Method `Reader.Next`. -/
def Reader.Next (r : Reader) : Except Error Header × Reader :=
  (r.script r.calls, { r with calls := r.calls + 1 })

end tar

/-- The `yield` argument of an `iter.Seq2[Header, error]`: the consumer, a
function of the pair it is handed and of its own state. -/
abbrev Yield (κ : Type) := Header → Option Error → κ → Bool × κ

/-- Type `iter.Seq2[Header, error]`, for a producer with state `σ`: run with
a consumer, it returns both final states, or `none` when the loop has not
returned within the fuel it was given. -/
abbrev Seq2 (σ : Type) := {κ : Type} → Yield κ → σ → κ → Option (σ × κ)

/-- Function `TarReaderToHeaders`: the body of the returned iterator, its
`for` loop bounded by `fuel` rounds. -/
def TarReaderToHeaders (fuel : Nat) {κ : Type} (yield : Yield κ) (r : tar.Reader) (k : κ) :
    Option (tar.Reader × κ) :=
  match fuel with
  | 0 => none
  | fuel + 1 =>
    match r.Next with
    | (Except.error e, r) =>
      if e = Error.EOF then some (r, k)
      else some (r, (yield Header.zero (some e) k).2)
    | (Except.ok hdr, r) =>
      let (converted, e) := HeaderNew hdr
      let (more, k) := yield converted e k
      if !more then some (r, k)
      else TarReaderToHeaders fuel yield r k

/-- An arbitrary consumer that also keeps what it was handed: its state is the
list of the pairs yielded so far, and `answer`, a function of that list (the
last pair included), is what `yield` returns. -/
def recorder (answer : List (Header × Option Error) → Bool) :
    Yield (List (Header × Option Error)) :=
  fun hdr e seen => (answer (seen ++ [(hdr, e)]), seen ++ [(hdr, e)])

/-- The iterator over a finite sequence of pairs: it yields them in order and
returns when `yield` returns false. -/
def seqOfList {κ : Type} (yield : Yield κ) (ps : List (Header × Option Error)) (k : κ) :
    Option (List (Header × Option Error) × κ) :=
  match ps with
  | [] => some ([], k)
  | (hdr, e) :: rest =>
    let (more, k) := yield hdr e k
    if !more then some (rest, k)
    else seqOfList yield rest k

/-- A decoder script: the headers of `hs` in order, then `last` for ever. -/
def scriptOf (hs : List tar.Header) (last : Except Error tar.Header) :
    Nat → Except Error tar.Header :=
  fun i => match hs.get? i with
    | some h => Except.ok h
    | none => last

/-! ## The output side: `io.Writer`, `bufio.Writer`, `json.Encoder`, `context.Context` -/

/-- The `io.Writer` handed to `WriterToHeadersWriter`: `data` is what it has
accepted so far; it accepts `room` more bytes (`none`: any number) and fails
with `err` on a write that does not fit, after taking the bytes that do. -/
structure Sink where
  data : GoString
  room : Option Nat
  err : Error
  deriving DecidableEq, Repr

/-- Method `Write` of the sink: `(n, err)` and the sink afterwards. -/
def Sink.Write (s : Sink) (p : GoString) : (Nat × Option Error) × Sink :=
  match s.room with
  | none => ((p.length, none), { s with data := s.data ++ p })
  | some c =>
    if p.length ≤ c then
      ((p.length, none), { s with data := s.data ++ p, room := some (c - p.length) })
    else
      ((c, some s.err), { s with data := s.data ++ p.take c, room := some 0 })

namespace bufio

/-- Type `bufio.Writer`: `buf` is `b.buf[0:b.n]`, `size` is `len(b.buf)`. -/
structure Writer where
  err : Option Error
  buf : GoString
  size : Nat
  wr : Sink
  deriving DecidableEq, Repr

/-- Function `bufio.NewWriter`: a buffer of the default size, 4096. -/
def NewWriter (w : Sink) : Writer := { err := none, buf := [], size := 4096, wr := w }

def Writer.Available (b : Writer) : Nat := b.size - b.buf.length

def Writer.Buffered (b : Writer) : Nat := b.buf.length

/-- Method `Writer.Flush`. -/
def Writer.Flush (b : Writer) : Option Error × Writer :=
  if b.err ≠ none then (b.err, b)
  else if b.buf.length = 0 then (none, b)
  else
    match b.wr.Write b.buf with
    | ((n, err), wr) =>
      let err := if n < b.buf.length ∧ err = none then some Error.ErrShortWrite else err
      if err ≠ none then (err, { b with buf := b.buf.drop n, err := err, wr := wr })
      else (none, { b with buf := [], wr := wr })

/-- Loop of `Writer.Write`: `for len(p) > b.Available() && b.err == nil`.
It returns the writer, what is left of `p`, and `nn`. -/
def Writer.writeLoop : Nat → Writer → GoString → Nat → Writer × GoString × Nat
  | 0, b, p, nn => (b, p, nn)
  | fuel + 1, b, p, nn =>
    if p.length > b.Available ∧ b.err = none then
      if b.Buffered = 0 then
        match b.wr.Write p with
        | ((n, err), wr) => Writer.writeLoop fuel { b with err := err, wr := wr } (p.drop n) (nn + n)
      else
        let n := min b.Available p.length
        let b := { b with buf := b.buf ++ p.take n }
        Writer.writeLoop fuel b.Flush.2 (p.drop n) (nn + n)
    else (b, p, nn)

/-- Method `Writer.Write`. Over a `Sink` the loop runs at most twice (a flush
of the filled buffer, then a direct write), so three rounds of fuel reach
its exit. -/
def Writer.Write (b : Writer) (p : GoString) : (Nat × Option Error) × Writer :=
  match Writer.writeLoop 3 b p 0 with
  | (b, p, nn) =>
    if b.err ≠ none then ((nn, b.err), b)
    else
      let n := min b.Available p.length
      ((nn + n, none), { b with buf := b.buf ++ p.take n })

end bufio

namespace json

/-- Type `json.Encoder`: its writer and its sticky error. -/
structure Encoder where
  w : bufio.Writer
  err : Option Error
  deriving DecidableEq, Repr

/-- Function `json.NewEncoder`. -/
def NewEncoder (w : bufio.Writer) : Encoder := { w := w, err := none }

/-- Method `Encoder.Encode`, `marshal` being the JSON encoding of a record:
the encoding, a newline after it, goes to the writer in one `Write`. -/
def Encoder.Encode (marshal : Header → Except Error GoString) (enc : Encoder) (v : Header) :
    Option Error × Encoder :=
  if enc.err ≠ none then (enc.err, enc)
  else
    match marshal v with
    | Except.error e => (some e, enc)
    | Except.ok b =>
      match enc.w.Write (b ++ [10]) with
      | ((_, err), w) =>
        if err ≠ none then (err, { w := w, err := err })
        else (none, { enc with w := w })

end json

namespace context

/-- A `context.Context`, seen through the `select` of the drain loop:
`done i` is `none` when `ctx.Done()` is still open at check number `i`
(counted from 0), and `some e` when it is closed, `e` being `ctx.Err()`. -/
structure Context where
  done : Nat → Option Error

end context

/-! ## `jwtr.go`: `WriterToHeadersWriter` -/

/-- State of the `for ... range hdrs` loop of `WriterToHeadersWriter`: the
encoder (and through it the buffered writer), the number of `select` checks
made, and the error of the `return` statement the body has run, if any. -/
structure LoopState where
  enc : json.Encoder
  polls : Nat
  ret : Option (Option Error)

/-- Body of the `for hdr, e := range hdrs` loop, as the `yield` function the
range statement passes to the iterator: a `return` in the body records the
result and answers false. -/
def loopBody (marshal : Header → Except Error GoString) (ctx : context.Context) :
    Yield LoopState :=
  fun hdr e st =>
    match ctx.done st.polls with
    | some cerr => (false, { st with polls := st.polls + 1, ret := some (some cerr) })
    | none =>
      let st := { st with polls := st.polls + 1 }
      match e with
      | some e => (false, { st with ret := some (some e) })
      | none =>
        match st.enc.Encode marshal hdr with
        | (some e, enc) => (false, { st with enc := enc, ret := some (some e) })
        | (none, enc) => (true, { st with enc := enc })

/-- What follows the `for ... range` loop of `WriterToHeadersWriter`: the
result is the one of the `return` the body has run, or that of the final
`return Empty, nil`; the deferred `bw.Flush()` then runs, its own result
dropped. -/
def afterLoop {σ : Type} (res : Option (σ × LoopState)) : Option (σ × Sink × Option Error) :=
  match res with
  | none => none
  | some (src, st) =>
    let result : Option Error := match st.ret with
      | some e => e
      | none => none
    some (src, st.enc.w.Flush.2.wr, result)

/-- Function `WriterToHeadersWriter`, applied to the sink, the sequence (a
producer `hdrs` and its state `src`) and the context. It returns the final
state of the producer, the sink after the deferred `bw.Flush()`, and the
error returned; `none` only when the producer ran out of fuel. -/
def WriterToHeadersWriter (marshal : Header → Except Error GoString) (wtr : Sink)
    {σ : Type} (hdrs : Seq2 σ) (src : σ) (ctx : context.Context) :
    Option (σ × Sink × Option Error) :=
  let bw := bufio.NewWriter wtr
  let enc := json.NewEncoder bw
  afterLoop (hdrs (loopBody marshal ctx) src { enc := enc, polls := 0, ret := none })

/-- A stand-in JSON encoding for examples: the record's name between quotes. -/
def marshalName : Header → Except Error GoString :=
  fun h => Except.ok ([34] ++ h.Name ++ [34])

/-- A sink that never fails. -/
def goodSink : Sink := { data := [], room := none, err := Error.other 0 }

/-- A context that is never cancelled. -/
def background : context.Context := { done := fun _ => none }

/-- A context cancelled from check number `m` on. -/
def cancelledFrom (m : Nat) : context.Context :=
  { done := fun i => if m ≤ i then some Error.Canceled else none }

/-- The final `'/'`-separated segment of a path, in the words of the
specification: the longest suffix of the name that holds no `'/'`. -/
def finalSegment (name : GoString) : GoString :=
  (name.reverse.takeWhile (fun c => c != 47)).reverse

/-- State of a consumer after it has been handed the pairs of `ps` in order. -/
def feed {κ : Type} (yield : Yield κ) (ps : List (Header × Option Error)) (k : κ) : κ :=
  ps.foldl (fun k p => (yield p.1 p.2 k).2) k

/-- The first non-nil error of a sequence of pairs; nil when there is none. -/
def firstError : List (Header × Option Error) → Option Error
  | [] => none
  | (_, some e) :: _ => some e
  | (_, none) :: rest => firstError rest

/-- The records that precede the first pair whose error is non-nil. -/
def recordsBeforeError : List (Header × Option Error) → List Header
  | [] => []
  | (_, some _) :: _ => []
  | (hdr, none) :: rest => hdr :: recordsBeforeError rest

/-- The bytes the records `rs` make on the output: the serialization of each,
a newline after it, in order. -/
def outputOf (ser : Header → GoString) (rs : List Header) : GoString :=
  (rs.map (fun hdr => ser hdr ++ [10])).flatten

/-- A buffered writer without error over a sink that never fails, `out` being
the bytes written to it so far (those flushed, then those buffered). -/
def GoodWriter (b : bufio.Writer) (out : GoString) : Prop :=
  b.err = none ∧ b.wr.room = none ∧ b.wr.data ++ b.buf = out

/-- A loop state of `WriterToHeadersWriter` in which no `return` has run: the
encoder and its writer are without error, `out` has been written, and `n`
cancellation checks have been made. -/
def GoodState (st : LoopState) (out : GoString) (n : Nat) : Prop :=
  st.enc.err = none ∧ GoodWriter st.enc.w out ∧ st.polls = n ∧ st.ret = none

/-- The consumer answers true to each pair of `ps`, handed to it in order
from state `k`. -/
def pullsThrough {κ : Type} (yield : Yield κ) : List (Header × Option Error) → κ → Prop
  | [], _ => True
  | p :: rest, k => (yield p.1 p.2 k).1 = true ∧ pullsThrough yield rest (yield p.1 p.2 k).2

/-- Invariant of the buffer of `path.Clean`: the write index is within the
buffer and not below `dotdot`; for a rooted path the buffer starts with `'/'`
and `dotdot` is at least 1. -/
def LazyInv (rooted : Bool) (dotdot : Nat) (out : path.lazybuf) : Prop :=
  out.w ≤ out.buf.length ∧ dotdot ≤ out.w ∧
    (rooted = true → out.buf.head? = some 47 ∧ 1 ≤ dotdot)

/-- The raw format codes that are keys of `FormatMap`. -/
def formatKeys : List Int := FormatMap.map (fun p => p.1)

/-! ### The parts of `headerFileInfo.Mode` -/

namespace tar

/-- Value of `mode` in `headerFileInfo.Mode` before its two `switch`
statements: the permission, setuid, setgid and sticky bits. -/
def headerFileInfo.permBits (h : Header) : fs.FileMode :=
  let m32 : Nat := (h.Mode % 2 ^ 32).toNat
  let m64 : Nat := (h.Mode % 2 ^ 64).toNat
  let mode := fs.FileMode.Perm m32
  let mode := if m64 &&& c_ISUID != 0 then mode ||| fs.ModeSetuid else mode
  let mode := if m64 &&& c_ISGID != 0 then mode ||| fs.ModeSetgid else mode
  let mode := if m64 &&& c_ISVTX != 0 then mode ||| fs.ModeSticky else mode
  mode

/-- Value the first `switch` of `headerFileInfo.Mode` looks at:
`fs.FileMode(fi.h.Mode) &^ 07777`, the file-type bits of the raw mode. -/
def headerFileInfo.fileTypeBits (h : Header) : Nat :=
  bitClear32 (h.Mode % 2 ^ 32).toNat 0o7777

/-- First `switch` of `headerFileInfo.Mode`, on the file-type bits `m`. -/
def headerFileInfo.modeSwitch (m : Nat) (mode : fs.FileMode) : fs.FileMode :=
  if m = c_ISDIR then mode ||| fs.ModeDir
  else if m = c_ISFIFO then mode ||| fs.ModeNamedPipe
  else if m = c_ISLNK then mode ||| fs.ModeSymlink
  else if m = c_ISBLK then mode ||| fs.ModeDevice
  else if m = c_ISCHR then mode ||| fs.ModeDevice ||| fs.ModeCharDevice
  else if m = c_ISSOCK then mode ||| fs.ModeSocket
  else mode

/-- Second `switch` of `headerFileInfo.Mode`, on the type code. -/
def headerFileInfo.typeSwitch (t : Nat) (mode : fs.FileMode) : fs.FileMode :=
  if t = TypeSymlink then mode ||| fs.ModeSymlink
  else if t = TypeChar then mode ||| fs.ModeDevice ||| fs.ModeCharDevice
  else if t = TypeBlock then mode ||| fs.ModeDevice
  else if t = TypeDir then mode ||| fs.ModeDir
  else if t = TypeFifo then mode ||| fs.ModeNamedPipe
  else mode

end tar

/-- The pair `TarReaderToHeaders` yields for a result of `Next` other than
end-of-stream: the conversion of the header, or the zero record with the
decode error. -/
def yieldedFor (res : Except Error tar.Header) : Header × Option Error :=
  match res with
  | Except.ok hdr => HeaderNew hdr
  | Except.error e => (Header.zero, some e)

/-! ## `cmd/tar2headers/main.go` -/

/-- What a run of the command leaves: the bytes on `os.Stdout` (the record
stream), the bytes on `os.Stderr` (where the standard logger writes), and the
exit status of the process. -/
structure ProcessResult where
  stdout : GoString
  stderr : GoString
  status : Nat
  deriving DecidableEq, Repr

namespace log

/-- Call `log.Printf("%v\n", e)` on the standard logger: one line added to
`os.Stderr`, made of the logger's header (date and time), of `e.Error()` and
of a newline. -/
def Printf (header : GoString) (text : Error → GoString) (e : Error) (stderr : GoString) :
    GoString :=
  stderr ++ header ++ text e ++ [10]

end log

/-- Function `sub`: it runs `stdin2headers2stdout`, taken here as the function
from the context to what the run wrote on `os.Stdout` and the error it
returned, under `context.WithCancel(ctx)`, a context that is done when `ctx`
is, its own `cancel` being deferred to the return. -/
def sub (stdin2headers2stdout : context.Context → GoString × Option Error)
    (ctx : context.Context) : GoString × Option Error :=
  stdin2headers2stdout ctx

/-- Function `main`: it runs `sub` under `context.Background()` and logs the
error, if any. It writes nothing to `os.Stdout` itself and calls neither
`os.Exit` nor `log.Fatal`: it returns, and the process exits with status 0. -/
def main (stdin2headers2stdout : context.Context → GoString × Option Error)
    (header : GoString) (text : Error → GoString) : ProcessResult :=
  match sub stdin2headers2stdout background with
  | (out, some e) => { stdout := out, stderr := log.Printf header text e [], status := 0 }
  | (out, none) => { stdout := out, stderr := [], status := 0 }

/-- The pipeline of the command over a given standard input (a decoder) and
standard output (a sink): `TarReaderToHeaders` drained by the function
`WriterToHeadersWriter` returns. -/
def pipeline (marshal : Header → Except Error GoString) (stdin : tar.Reader) (stdout : Sink)
    (fuel : Nat) (ctx : context.Context) : GoString × Option Error :=
  match WriterToHeadersWriter marshal stdout (TarReaderToHeaders fuel) stdin ctx with
  | some (_, sink, e) => (sink.data, e)
  | none => ([], none)

/-- A stand-in for `e.Error()` in examples. -/
def errorText : Error → GoString
  | Error.ErrInvalidTypeFlag => ascii "invalid type flag"
  | Error.EOF => ascii "EOF"
  | Error.Canceled => ascii "context canceled"
  | Error.DeadlineExceeded => ascii "context deadline exceeded"
  | Error.ErrShortWrite => ascii "short write"
  | Error.other _ => ascii "error"

/-- A sink on which every write fails, such as a closed pipe. -/
def brokenSink : Sink := { data := [], room := some 0, err := Error.other 5 }

/-! ## Theorems -/

/-! ### The registry and `HeaderNew` -/

theorem lookup_eq_none_iff_not_mem {β : Type} (l : List (Nat × β)) (b : Nat) :
    l.lookup b = none ↔ b ∉ l.map (fun p => p.1) := by
  induction l with
  | nil => simp
  | cons x t ih =>
    obtain ⟨k, v⟩ := x
    by_cases hk : b = k
    · subst hk
      simp [List.lookup]
    · have hk2 : (b == k) = false := by simpa using hk
      simp [List.lookup, hk2, ih, hk]

theorem TypeFlagFromByte_of_not_registered (b : Nat) (h : b ∉ registeredTypeCodes) :
    TypeFlagFromByte b = (0, some Error.ErrInvalidTypeFlag) := by
  have hl : TypeFlagMap.lookup b = none := (lookup_eq_none_iff_not_mem TypeFlagMap b).2 h
  simp [TypeFlagFromByte, hl]

theorem TypeFlagFromByte_of_registered (b : Nat) (h : b ∈ registeredTypeCodes) :
    TypeFlagFromByte b = (b, none) := by
  simp only [registeredTypeCodes, TypeFlagMap, List.map, List.mem_cons, List.mem_singleton,
    List.not_mem_nil, or_false] at h
  rcases h with h | h | h | h | h | h | h | h | h | h | h | h | h <;> subst h <;> rfl

theorem HeaderNew_of_not_registered (t : tar.Header) (h : t.Typeflag ∉ registeredTypeCodes) :
    HeaderNew t = (Header.zero, some Error.ErrInvalidTypeFlag) := by
  simp [HeaderNew, TypeFlagFromByte_of_not_registered _ h]

theorem HeaderNew_err_of_registered (t : tar.Header) (h : t.Typeflag ∈ registeredTypeCodes) :
    (HeaderNew t).2 = none := by
  simp [HeaderNew, TypeFlagFromByte_of_registered _ h]

/-- C1: `HeaderNew h` returns an error exactly when `h.Typeflag` is not one of
the 13 registered type codes; the error is then `ErrInvalidTypeFlag` and the
record returned is the zero value; for a registered code the error is nil. -/
theorem HeaderNew_error_iff_unregistered (h : tar.Header) :
    ((HeaderNew h).2 ≠ none ↔ h.Typeflag ∉ registeredTypeCodes) ∧
    (h.Typeflag ∉ registeredTypeCodes →
      HeaderNew h = (Header.zero, some Error.ErrInvalidTypeFlag)) ∧
    (h.Typeflag ∈ registeredTypeCodes → (HeaderNew h).2 = none) ∧
    registeredTypeCodes = [48, 49, 50, 51, 52, 53, 54, 55, 120, 103, 83, 76, 75] ∧
    registeredTypeCodes.length = 13 ∧ registeredTypeCodes.Nodup := by
  refine ⟨?_, HeaderNew_of_not_registered h, HeaderNew_err_of_registered h, rfl, rfl, ?_⟩
  · constructor
    · intro hne hmem
      exact hne (HeaderNew_err_of_registered h hmem)
    · intro hnot
      rw [HeaderNew_of_not_registered h hnot]
      simp
  · decide

/-- C1, at concrete inputs: type code 0 (`TypeRegA`) is rejected with the zero
record, type code `'0'` is accepted. -/
theorem HeaderNew_error_iff_unregistered_witness :
    HeaderNew (rawHeader 0 (ascii "a") 1 0o644) = (Header.zero, some Error.ErrInvalidTypeFlag) ∧
    (HeaderNew (rawHeader 48 (ascii "a") 1 0o644)).2 = none :=
  ⟨(HeaderNew_error_iff_unregistered (rawHeader 0 (ascii "a") 1 0o644)).2.1 (by decide),
   (HeaderNew_error_iff_unregistered (rawHeader 48 (ascii "a") 1 0o644)).2.2.1 (by decide)⟩

/-! ### `path.Base` and the base name -/

theorem HeaderNew_Basename (t : tar.Header) (h : t.Typeflag ∈ registeredTypeCodes) :
    (HeaderNew t).1.Basename = tar.headerFileInfo.Name t := by
  simp [HeaderNew, TypeFlagFromByte_of_registered _ h]

theorem contains_slash_eq_false {x : GoString} (hx : 47 ∉ x) : x.contains 47 = false := by
  cases hc : x.contains 47
  · rfl
  · exact absurd (List.elem_iff.1 hc) hx

theorem afterLastSlash_of_no_slash (x : GoString) (hx : 47 ∉ x) : path.afterLastSlash x = 0 := by
  cases x with
  | nil => rfl
  | cons c t =>
    have hc : c ≠ 47 := fun h => hx (by simp [h])
    have ht : 47 ∉ t := fun h => hx (List.mem_cons_of_mem c h)
    have hct := contains_slash_eq_false ht
    simp only [path.afterLastSlash, hct]
    simp [hc]

theorem afterLastSlash_append_slash (pre x : GoString) (hx : 47 ∉ x) :
    path.afterLastSlash (pre ++ 47 :: x) = pre.length + 1 := by
  induction pre with
  | nil =>
    have hct := contains_slash_eq_false hx
    simp only [List.nil_append, path.afterLastSlash, hct]
    simp
  | cons c t ih =>
    have hmem : (t ++ 47 :: x).contains 47 = true := List.elem_iff.2 (by simp)
    simp only [List.cons_append, path.afterLastSlash, hmem]
    simp [ih]

theorem stripTrailingSlashes_of_last (p : GoString) (c : Nat) (hc : c ≠ 47) :
    path.stripTrailingSlashes (p ++ [c]) = p ++ [c] := by
  simp [path.stripTrailingSlashes, List.dropWhile, hc]

theorem exists_last_of_ne_nil (x : GoString) (hx : x ≠ []) : ∃ y c, x = y ++ [c] :=
  ⟨x.dropLast, x.getLast hx, (List.dropLast_append_getLast hx).symm⟩

/-- `path.Base` of a name without `'/'` is the name itself. -/
theorem Base_of_no_slash (x : GoString) (hne : x ≠ []) (hx : 47 ∉ x) : path.Base x = x := by
  obtain ⟨y, c, rfl⟩ := exists_last_of_ne_nil x hne
  have hc : c ≠ 47 := fun h => hx (by simp [h])
  simp only [path.Base, stripTrailingSlashes_of_last y c hc,
    afterLastSlash_of_no_slash (y ++ [c]) hx]
  simp

/-- `path.Base` of `pre/x`, `x` non-empty and without `'/'`, is `x`. -/
theorem Base_append_slash (pre x : GoString) (hne : x ≠ []) (hx : 47 ∉ x) :
    path.Base (pre ++ 47 :: x) = x := by
  obtain ⟨y, c, rfl⟩ := exists_last_of_ne_nil x hne
  have hc : c ≠ 47 := fun h => hx (by simp [h])
  have hstrip : path.stripTrailingSlashes (pre ++ 47 :: (y ++ [c])) = pre ++ 47 :: (y ++ [c]) := by
    have := stripTrailingSlashes_of_last (pre ++ 47 :: y) c hc
    simpa using this
  simp only [path.Base, hstrip, afterLastSlash_append_slash pre (y ++ [c]) hx]
  simp

theorem finalSegment_of_no_slash (x : GoString) (hx : 47 ∉ x) : finalSegment x = x := by
  unfold finalSegment
  rw [List.takeWhile_eq_self_iff.2, List.reverse_reverse]
  intro c hc
  have : c ≠ 47 := fun h => hx (by simpa [h] using hc)
  simpa using this

theorem finalSegment_append_slash (pre x : GoString) (hx : 47 ∉ x) :
    finalSegment (pre ++ 47 :: x) = x := by
  unfold finalSegment
  have hall : ∀ a ∈ x.reverse, (fun c : Nat => c != 47) a = true := by
    intro c hc
    have : c ≠ 47 := fun h => hx (by simpa [h] using hc)
    simpa using this
  rw [List.reverse_append, List.reverse_cons, List.append_assoc,
    List.takeWhile_append_of_pos hall]
  simp

/-- Every name is free of `'/'` or splits at its last `'/'`. -/
theorem exists_last_slash (p : GoString) :
    47 ∉ p ∨ ∃ pre x, p = pre ++ 47 :: x ∧ 47 ∉ x := by
  induction p with
  | nil => left; simp
  | cons c t ih =>
    rcases ih with h | ⟨pre, x, rfl, hx⟩
    · by_cases hc : c = 47
      · right
        exact ⟨[], t, by simp [hc], h⟩
      · left
        simp [h, Ne.symm hc]
    · right
      exact ⟨c :: pre, x, by simp, hx⟩

theorem Base_ne_nil (p : GoString) : path.Base p ≠ [] := by
  unfold path.Base
  split
  · simp
  · simp only
    split
    · simp
    · assumption

/-- For a non-empty name, `path.Base` gives the final segment exactly when the
name does not end in `'/'`; for the empty name it gives `"."`. -/
theorem Base_eq_finalSegment_iff (p : GoString) :
    path.Base p = finalSegment p ↔ p ≠ [] ∧ p.getLast? ≠ some 47 := by
  constructor
  · intro h
    have hne : finalSegment p ≠ [] := h ▸ Base_ne_nil p
    constructor
    · rintro rfl
      exact hne rfl
    · intro hlast
      apply hne
      rcases exists_last_slash p with hp | ⟨pre, x, rfl, hx⟩
      · exact absurd (List.mem_of_getLast?_eq_some hlast) hp
      · rw [finalSegment_append_slash pre x hx]
        by_contra hxne
        have : (pre ++ 47 :: x).getLast? = x.getLast? := by
          cases x with
          | nil => exact absurd rfl hxne
          | cons a b =>
            rw [List.getLast?_append, List.getLast?_cons_cons]
            cases hb : (a :: b).getLast? with
            | none => simp at hb
            | some v => rfl
        rw [this] at hlast
        exact hx (List.mem_of_getLast?_eq_some hlast)
  · rintro ⟨hne, hlast⟩
    rcases exists_last_slash p with hp | ⟨pre, x, rfl, hx⟩
    · rw [Base_of_no_slash p hne hp, finalSegment_of_no_slash p hp]
    · have hxne : x ≠ [] := by
        rintro rfl
        simp at hlast
      rw [Base_append_slash pre x hxne hx, finalSegment_append_slash pre x hx]

/-- C2 as stated fails: a directory entry named `"/"` gets Basename `"/"`,
which is not the final segment of its name (the empty string). -/
theorem Basename_root_directory_counterexample :
    tar.TypeDir ∈ registeredTypeCodes ∧
    (HeaderNew (rawHeader tar.TypeDir (ascii "/") 0 0o755)).1.Basename = ascii "/" ∧
    finalSegment (ascii "/") = [] ∧
    (HeaderNew (rawHeader tar.TypeDir (ascii "/") 0 0o755)).1.Basename ≠
      finalSegment (rawHeader tar.TypeDir (ascii "/") 0 0o755).Name := by
  decide

/-! ### `path.Clean` keeps the final segment of a directory's name -/

theorem lazybuf_append_inv (rooted : Bool) (d : Nat) (out : path.lazybuf) (c : Nat)
    (h : LazyInv rooted d out) : LazyInv rooted d (out.append c) := by
  obtain ⟨h1, h2, h3⟩ := h
  refine ⟨?_, ?_, ?_⟩
  · simp [path.lazybuf.append, Nat.min_eq_left h1]
  · simp only [path.lazybuf.append]; omega
  · intro hr
    obtain ⟨h4, h5⟩ := h3 hr
    refine ⟨?_, h5⟩
    simp only [path.lazybuf.append]
    cases hb : out.buf with
    | nil => rw [hb] at h4; simp at h4
    | cons a t =>
      rw [hb] at h4
      have hw : out.w = (out.w - 1) + 1 := by omega
      rw [hw, List.take_succ_cons]
      simpa using h4

theorem lazybuf_append_string (out : path.lazybuf) (c : Nat) (h : out.w ≤ out.buf.length) :
    (out.append c).string = out.string ++ [c] := by
  simp only [path.lazybuf.append, path.lazybuf.string]
  have hlen : (out.buf.take out.w).length = out.w := by simp [Nat.min_eq_left h]
  rw [List.take_append_eq_append_take, hlen]
  simp

theorem backtrack_bounds (b : path.lazybuf) (d : Nat) :
    ∀ w, d ≤ w → d ≤ path.backtrack b d w ∧ path.backtrack b d w ≤ w := by
  intro w
  induction w with
  | zero => intro h; simp [path.backtrack]; omega
  | succ w ih =>
    intro h
    rw [path.backtrack]
    split
    · rename_i hc
      have hd : d ≤ w := by
        simp only [Bool.and_eq_true, decide_eq_true_eq] at hc
        omega
      have := ih hd
      omega
    · omega

theorem copyElem_bound (p : GoString) (rooted : Bool) (d b : Nat)
    (hb : p.getD b 0 = 47) :
    ∀ (fuel r : Nat) (out : path.lazybuf), LazyInv rooted d out → r ≤ b →
      r ≤ (path.copyElem p fuel r out).1 ∧ (path.copyElem p fuel r out).1 ≤ b ∧
        LazyInv rooted d (path.copyElem p fuel r out).2 := by
  intro fuel
  induction fuel with
  | zero => intro r out hinv hr; exact ⟨Nat.le_refl _, hr, hinv⟩
  | succ f ih =>
    intro r out hinv hr
    rw [path.copyElem]
    split
    · rename_i hc
      simp only [Bool.and_eq_true, decide_eq_true_eq, bne_iff_ne, ne_eq] at hc
      have hne : r ≠ b := fun h => hc.2 (h ▸ hb)
      have := ih (r + 1) (out.append (p.getD r 0)) (lazybuf_append_inv _ _ _ _ hinv) (by omega)
      exact ⟨by omega, this.2.1, this.2.2⟩
    · exact ⟨Nat.le_refl _, hr, hinv⟩

theorem copyElem_ge (p : GoString) :
    ∀ (fuel r : Nat) (out : path.lazybuf), r ≤ (path.copyElem p fuel r out).1 := by
  intro fuel
  induction fuel with
  | zero => intro r out; exact Nat.le_refl _
  | succ f ih =>
    intro r out
    rw [path.copyElem]
    split
    · have := ih (r + 1) (out.append (p.getD r 0))
      omega
    · exact Nat.le_refl _

theorem copyElem_progress (p : GoString) (fuel r : Nat) (out : path.lazybuf)
    (hr : r < p.length) (hc : p.getD r 0 ≠ 47) :
    r < (path.copyElem p (fuel + 1) r out).1 := by
  rw [path.copyElem]
  have hcond : (decide (r < p.length) && p.getD r 0 != 47) = true := by
    rw [Bool.and_eq_true]
    exact ⟨decide_eq_true hr, bne_iff_ne.2 hc⟩
  rw [if_pos hcond]
  have := copyElem_ge p fuel (r + 1) (out.append (p.getD r 0))
  omega

/-- The buffer after the separator that `Clean` may put before a real path
element: the invariant still holds, and the bytes written are empty, or end
with `'/'`. -/
theorem lazybuf_separator (rooted : Bool) (d : Nat) (out : path.lazybuf)
    (hinv : LazyInv rooted d out) :
    LazyInv rooted d
        (if (rooted && out.w != 1 || !rooted && out.w != 0) = true then out.append 47 else out) ∧
      ((if (rooted && out.w != 1 || !rooted && out.w != 0) = true then out.append 47
          else out).string = [] ∨
        ∃ pre, (if (rooted && out.w != 1 || !rooted && out.w != 0) = true then out.append 47
          else out).string = pre ++ [47]) := by
  split
  · exact ⟨lazybuf_append_inv _ _ _ _ hinv, Or.inr ⟨out.string, lazybuf_append_string _ _ hinv.1⟩⟩
  · rename_i hc
    refine ⟨hinv, ?_⟩
    cases hroot : rooted with
    | false =>
      left
      have hw : out.w = 0 := by
        by_contra hne
        exact hc (by simp [hroot, hne])
      simp [path.lazybuf.string, hw]
    | true =>
      right
      have hw : out.w = 1 := by
        by_contra hne
        exact hc (by simp [hroot, hne])
      obtain ⟨h1, -, h3⟩ := hinv
      obtain ⟨h4, -⟩ := h3 hroot
      refine ⟨[], ?_⟩
      cases hb : out.buf with
      | nil => rw [hb] at h4; simp at h4
      | cons a t =>
        rw [hb] at h4
        simp only [List.head?_cons, Option.some.injEq] at h4
        simp [path.lazybuf.string, hw, hb, h4]

theorem copyElem_upto (p : GoString) (rooted : Bool) (d e : Nat)
    (hstop : e = p.length ∨ p.getD e 0 = 47) :
    ∀ (fuel r : Nat) (out : path.lazybuf), LazyInv rooted d out →
      (∀ i, r ≤ i → i < e → p.getD i 0 ≠ 47) → r ≤ e → e ≤ p.length → e - r ≤ fuel →
      (path.copyElem p fuel r out).1 = e ∧
        (path.copyElem p fuel r out).2.string = out.string ++ (p.drop r).take (e - r) ∧
        out.w + (e - r) = (path.copyElem p fuel r out).2.w := by
  intro fuel
  induction fuel with
  | zero =>
    intro r out _ _ hr _ hf
    have : r = e := by omega
    subst this
    simp [path.copyElem]
  | succ f ih =>
    intro r out hinv hno hr hen hf
    rw [path.copyElem]
    by_cases hre : r < e
    · have hrn : r < p.length := by omega
      have hcond : (decide (r < p.length) && p.getD r 0 != 47) = true := by
        rw [Bool.and_eq_true]
        exact ⟨decide_eq_true hrn, bne_iff_ne.2 (hno r (Nat.le_refl _) hre)⟩
      rw [if_pos hcond]
      obtain ⟨h1, h2, h3⟩ := ih (r + 1) (out.append (p.getD r 0))
        (lazybuf_append_inv _ _ _ _ hinv) (fun i hi => hno i (by omega)) (by omega) hen
        (by omega)
      refine ⟨h1, ?_, ?_⟩
      · rw [h2, lazybuf_append_string out _ hinv.1]
        have hd : p.drop r = p.getD r 0 :: p.drop (r + 1) := by
          rw [List.drop_eq_getElem_cons hrn]
          simp [List.getD_eq_getElem?_getD, List.getElem?_eq_getElem hrn]
        have hk : e - r = (e - (r + 1)) + 1 := by omega
        rw [hd, hk, List.take_succ_cons]
        simp
      · rw [← h3]
        simp only [path.lazybuf.append]
        omega
    · have hre' : r = e := by omega
      subst hre'
      have hcond : ¬ (decide (r < p.length) && p.getD r 0 != 47) = true := by
        rw [Bool.and_eq_true]
        rintro ⟨h1, h2⟩
        rcases hstop with h | h
        · have := of_decide_eq_true h1
          omega
        · exact (bne_iff_ne.1 h2) h
      rw [if_neg hcond]
      simp

/-- Over trailing slashes the loop of `Clean` leaves the buffer as it is. -/
theorem cleanLoop_slashes (p : GoString) (rooted : Bool) :
    ∀ (fuel r dotdot : Nat) (out : path.lazybuf),
      (∀ i, r ≤ i → i < p.length → p.getD i 0 = 47) →
      path.cleanLoop p rooted fuel r dotdot out = out := by
  intro fuel
  induction fuel with
  | zero => intro r dotdot out _; rfl
  | succ f ih =>
    intro r dotdot out h
    rw [path.cleanLoop]
    by_cases hrn : r < p.length
    · have c1 : (p.getD r 0 == 47) = true := by
        rw [h r (Nat.le_refl _) hrn]
        rfl
      simp only [hrn, if_true, c1]
      exact ih (r + 1) dotdot out (fun i hi hin => h i (by omega) hin)
    · simp only [hrn, if_false]

/-- The loop of `Clean` on a path whose last non-empty element, `p[s:e]`, is
neither `"."` nor `".."`: the cleaned path ends with that element. -/
theorem cleanLoop_final (p : GoString) (rooted : Bool) (s e : Nat)
    (hse : s < e) (hen : e ≤ p.length)
    (hbefore : s = 0 ∨ p.getD (s - 1) 0 = 47)
    (hno : ∀ i, s ≤ i → i < e → p.getD i 0 ≠ 47)
    (htail : ∀ i, e ≤ i → i < p.length → p.getD i 0 = 47)
    (hx : 47 ∉ (p.drop s).take (e - s))
    (hdot : ¬ (p.getD s 0 = 46 ∧ s + 1 = e))
    (hdotdot : ¬ (p.getD s 0 = 46 ∧ p.getD (s + 1) 0 = 46 ∧ s + 2 = e)) :
    ∀ (fuel r dotdot : Nat) (out : path.lazybuf), r ≤ s → p.length - r ≤ fuel →
      LazyInv rooted dotdot out →
      (path.cleanLoop p rooted fuel r dotdot out).w ≠ 0 ∧
        path.Base (path.cleanLoop p rooted fuel r dotdot out).string =
          (p.drop s).take (e - s) := by
  intro fuel
  induction fuel with
  | zero => intro r dotdot out hr hf _; omega
  | succ f ih =>
    intro r dotdot out hr hf hinv
    have hrn : r < p.length := by omega
    rw [path.cleanLoop]
    simp only [hrn, if_true]
    by_cases hrs : r < s
    · have hslash : p.getD (s - 1) 0 = 47 := by
        rcases hbefore with h0 | h0
        · omega
        · exact h0
      split
      · exact ih (r + 1) dotdot out (by omega) (by omega) hinv
      · rename_i h1
        have h1' : p.getD r 0 ≠ 47 := by simpa using h1
        split
        · exact ih (r + 1) dotdot out (by omega) (by omega) hinv
        · split
          · rename_i h3
            simp only [Bool.and_eq_true, beq_iff_eq] at h3
            have hr2 : r + 2 ≤ s := by
              by_contra hcon
              have : r = s - 1 := by omega
              rw [this] at h3
              rw [hslash] at h3
              exact absurd h3.1.1 (by decide)
            split
            · rename_i hw
              have hb := backtrack_bounds out dotdot (out.w - 1) (by omega)
              refine ih (r + 2) dotdot _ hr2 (by omega) ⟨?_, hb.1, hinv.2.2⟩
              have := hinv.1
              simp only
              omega
            · split
              · rename_i hroot
                have hroot' : rooted = false := by simpa using hroot
                have hsep : LazyInv rooted dotdot (if out.w > 0 then out.append 47 else out) := by
                  split
                  · exact lazybuf_append_inv _ _ _ _ hinv
                  · exact hinv
                have h2 := lazybuf_append_inv _ _ _ 46 (lazybuf_append_inv _ _ _ 46 hsep)
                exact ih (r + 2) _ _ hr2 (by omega)
                  ⟨h2.1, Nat.le_refl _, fun h => by rw [hroot'] at h; exact absurd h (by decide)⟩
              · exact ih (r + 2) dotdot out hr2 (by omega) hinv
          · obtain ⟨hsepinv, -⟩ := lazybuf_separator rooted dotdot out hinv
            have hbd := copyElem_bound p rooted dotdot (s - 1) hslash p.length r _ hsepinv
              (by omega)
            have hlen : p.length = (p.length - 1) + 1 := by omega
            have hprog := copyElem_progress p (p.length - 1) r
              (if (rooted && out.w != 1 || !rooted && out.w != 0) = true then out.append 47
                else out) hrn h1'
            rw [← hlen] at hprog
            cases hce : path.copyElem p p.length r
              (if (rooted && out.w != 1 || !rooted && out.w != 0) = true then out.append 47
                else out) with
            | mk r' out' =>
              rw [hce] at hbd hprog
              simp only at hbd hprog
              exact ih r' dotdot out' (by omega) (by omega) hbd.2.2
    · have hrs' : r = s := by omega
      subst hrs'
      have h47 : p.getD r 0 ≠ 47 := hno r (Nat.le_refl _) hse
      have hin : ∀ k v, p.getD k 0 = v → v ≠ 0 → k < p.length := by
        intro k v hk hv
        by_contra hcon
        rw [List.getD_eq_default _ _ (by omega)] at hk
        exact hv hk.symm
      have c1 : ¬ (p.getD r 0 == 47) = true := by simpa using h47
      have c2 : ¬ (p.getD r 0 == 46 && (r + 1 == p.length || p.getD (r + 1) 0 == 47)) = true := by
        simp only [Bool.and_eq_true, Bool.or_eq_true, beq_iff_eq]
        rintro ⟨ha, hb | hb⟩
        · exact hdot ⟨ha, by omega⟩
        · apply hdot
          refine ⟨ha, ?_⟩
          by_contra hcon
          exact hno (r + 1) (by omega) (by omega) hb
      have c3 : ¬ (p.getD r 0 == 46 && p.getD (r + 1) 0 == 46 &&
          (r + 2 == p.length || p.getD (r + 2) 0 == 47)) = true := by
        simp only [Bool.and_eq_true, Bool.or_eq_true, beq_iff_eq]
        rintro ⟨⟨ha, hb⟩, hc⟩
        have hr1 : r + 1 < p.length := hin (r + 1) 46 hb (by decide)
        have he1 : e ≠ r + 1 := by
          intro he
          have := htail (r + 1) (by omega) hr1
          rw [hb] at this
          exact absurd this (by decide)
        apply hdotdot
        refine ⟨ha, hb, ?_⟩
        rcases hc with hc | hc
        · omega
        · by_contra hcon
          exact hno (r + 2) (by omega) (by omega) hc
      rw [if_neg c1, if_neg c2, if_neg c3]
      obtain ⟨hsepinv, hsepstr⟩ := lazybuf_separator rooted dotdot out hinv
      have hstop : e = p.length ∨ p.getD e 0 = 47 := by
        by_cases hep : e = p.length
        · exact Or.inl hep
        · exact Or.inr (htail e (Nat.le_refl _) (by omega))
      obtain ⟨e1, e2, e3⟩ := copyElem_upto p rooted dotdot e hstop p.length r _ hsepinv hno
        (by omega) hen (by omega)
      cases hce : path.copyElem p p.length r
        (if (rooted && out.w != 1 || !rooted && out.w != 0) = true then out.append 47
          else out) with
      | mk r' out' =>
        rw [hce] at e1 e2 e3
        simp only at e1 e2 e3
        subst e1
        rw [cleanLoop_slashes p rooted f r' dotdot out' htail]
        have hxne : (p.drop r).take (r' - r) ≠ [] := by
          intro h
          have := congrArg List.length h
          simp at this
          omega
        refine ⟨by omega, ?_⟩
        rw [e2]
        rcases hsepstr with h | ⟨pre, h⟩
        · rw [h, List.nil_append]
          exact Base_of_no_slash _ hxne hx
        · rw [h, List.append_assoc, List.singleton_append]
          exact Base_append_slash pre _ hxne hx

theorem getD_ne_slash (x : GoString) (hx : 47 ∉ x) (j : Nat) : x.getD j 0 ≠ 47 := by
  rw [List.getD_eq_getElem?_getD]
  cases hj : x[j]? with
  | none => simp
  | some v =>
    have : v ∈ x := List.getElem?_mem hj
    simp only [Option.getD_some]
    rintro rfl
    exact hx this

/-- On a name `a ++ x ++ t` whose last non-empty segment `x` is neither `"."`
nor `".."`, `t` being its trailing slashes, `path.Clean` followed by
`path.Base` gives `x`. -/
theorem Base_Clean_of_split (a x t : GoString) (hxne : x ≠ []) (hx : 47 ∉ x)
    (hd : x ≠ [46]) (hdd : x ≠ [46, 46]) (ha : a = [] ∨ ∃ a', a = a' ++ [47])
    (ht : ∀ c ∈ t, c = 47) :
    path.Base (path.Clean (a ++ x ++ t)) = x := by
  have hxlen : 0 < x.length := List.length_pos.2 hxne
  have hlen : (a ++ x ++ t).length = a.length + x.length + t.length := by
    simp only [List.length_append]
  have hget : ∀ j, j < x.length → (a ++ x ++ t).getD (a.length + j) 0 = x.getD j 0 := by
    intro j hj
    rw [List.append_assoc, List.getD_append_right _ _ _ _ (by omega)]
    rw [show a.length + j - a.length = j by omega, List.getD_append _ _ _ _ hj]
  have hbefore : a.length = 0 ∨ (a ++ x ++ t).getD (a.length - 1) 0 = 47 := by
    rcases ha with h | ⟨a', h⟩
    · left; simp [h]
    · right
      subst h
      have h1 : (a' ++ [47]).length - 1 = a'.length := by simp
      rw [h1, List.append_assoc, List.append_assoc,
        List.getD_append_right _ _ _ _ (Nat.le_refl _)]
      simp
  have hno : ∀ i, a.length ≤ i → i < a.length + x.length → (a ++ x ++ t).getD i 0 ≠ 47 := by
    intro i hi hie
    have := hget (i - a.length) (by omega)
    rw [show a.length + (i - a.length) = i by omega] at this
    rw [this]
    exact getD_ne_slash x hx _
  have htail : ∀ i, a.length + x.length ≤ i → i < (a ++ x ++ t).length →
      (a ++ x ++ t).getD i 0 = 47 := by
    intro i hi hin
    rw [List.getD_append_right _ _ _ _ (by simpa using hi)]
    have hlt : i - (a ++ x).length < t.length := by
      rw [hlen] at hin
      simp only [List.length_append]
      omega
    rw [List.getD_eq_getElem _ _ hlt]
    exact ht _ (List.getElem_mem _)
  have hdrop : ((a ++ x ++ t).drop a.length).take (a.length + x.length - a.length) = x := by
    rw [List.append_assoc, List.drop_left, Nat.add_sub_cancel_left, List.take_left]
  have hdot : ¬ ((a ++ x ++ t).getD a.length 0 = 46 ∧ a.length + 1 = a.length + x.length) := by
    rintro ⟨h1, h2⟩
    have h1' := hget 0 hxlen
    rw [Nat.add_zero, h1] at h1'
    apply hd
    match x, h2, h1' with
    | [c], _, h1' => simp at h1'; rw [← h1']
    | [], h2, _ => simp at h2
    | _ :: _ :: _, h2, _ => simp at h2
  have hdotdot : ¬ ((a ++ x ++ t).getD a.length 0 = 46 ∧
      (a ++ x ++ t).getD (a.length + 1) 0 = 46 ∧ a.length + 2 = a.length + x.length) := by
    rintro ⟨h1, h2, h3⟩
    have hx2 : x.length = 2 := by omega
    have h1' := hget 0 hxlen
    have h2' := hget 1 (by omega)
    rw [Nat.add_zero, h1] at h1'
    rw [h2] at h2'
    apply hdd
    match x, hx2, h1', h2' with
    | [c, c'], _, h1', h2' => simp at h1' h2'; rw [← h1', ← h2']
    | [], h3, _, _ => simp at h3
    | [_], h3, _, _ => simp at h3
    | _ :: _ :: _ :: _, h3, _, _ => simp at h3
  have hpne : a ++ x ++ t ≠ [] := by simp [hxne]
  have hen : a.length + x.length ≤ (a ++ x ++ t).length := by rw [hlen]; omega
  unfold path.Clean
  rw [if_neg hpne]
  simp only
  cases hroot : (a ++ x ++ t).getD 0 0 == 47 with
  | false =>
    have hfin := cleanLoop_final (a ++ x ++ t) false a.length (a.length + x.length) (by omega)
      hen hbefore hno htail (by rw [hdrop]; exact hx) hdot hdotdot (a ++ x ++ t).length 0 0
      { buf := [], w := 0 } (by omega) (by omega) ⟨by simp, by simp, by simp⟩
    rw [hdrop] at hfin
    simp only [Bool.false_eq_true, if_false]
    have hw : ((path.cleanLoop (a ++ x ++ t) false (a ++ x ++ t).length 0 0
        { buf := [], w := 0 }).w == 0) = false := by simpa using hfin.1
    rw [hw]
    simpa using hfin.2
  | true =>
    have hane : 1 ≤ a.length := by
      by_contra hcon
      have h0 : a.length = 0 := by omega
      have := hno 0 (by omega) (by omega)
      exact this (by simpa using hroot)
    have hfin := cleanLoop_final (a ++ x ++ t) true a.length (a.length + x.length) (by omega)
      hen hbefore hno htail (by rw [hdrop]; exact hx) hdot hdotdot (a ++ x ++ t).length 1 1
      (path.lazybuf.append { buf := [], w := 0 } 47) hane
      (by omega) ⟨by simp [path.lazybuf.append], by simp [path.lazybuf.append],
        by simp [path.lazybuf.append]⟩
    rw [hdrop] at hfin
    simp only [if_true]
    have hw : ((path.cleanLoop (a ++ x ++ t) true (a ++ x ++ t).length 1 1
        (path.lazybuf.append { buf := [], w := 0 } 47)).w == 0) = false := by simpa using hfin.1
    rw [hw]
    simpa using hfin.2

theorem finalSegment_eq_nil_of_trailing_slash (p : GoString)
    (h : p = [] ∨ p.getLast? = some 47) : finalSegment p = [] := by
  rcases h with h | h
  · subst h; rfl
  · obtain ⟨q, rfl⟩ := List.getLast?_eq_some_iff.1 h
    simp [finalSegment]

/-- A name that is not empty and does not end in `'/'` is its final segment,
which is not empty, after nothing or after a prefix that ends in `'/'`. -/
theorem split_finalSegment (p : GoString) (hne : p ≠ []) (hlast : p.getLast? ≠ some 47) :
    ∃ a : GoString, p = a ++ finalSegment p ∧ finalSegment p ≠ [] ∧ 47 ∉ finalSegment p ∧
      (a = [] ∨ ∃ a', a = a' ++ [47]) := by
  rcases exists_last_slash p with hp | ⟨pre, x, rfl, hx⟩
  · rw [finalSegment_of_no_slash p hp]
    exact ⟨[], rfl, hne, hp, Or.inl rfl⟩
  · have hxne : x ≠ [] := by
      rintro rfl
      simp at hlast
    rw [finalSegment_append_slash pre x hx]
    exact ⟨pre ++ [47], by simp, hxne, hx, Or.inr ⟨pre, rfl⟩⟩

/-- A name is what `stripTrailingSlashes` leaves of it, which does not end in
`'/'`, followed by slashes. -/
theorem split_trailing_slashes (p : GoString) :
    ∃ t : GoString, p = path.stripTrailingSlashes p ++ t ∧ (∀ c ∈ t, c = 47) ∧
      (path.stripTrailingSlashes p).getLast? ≠ some 47 := by
  refine ⟨(p.reverse.takeWhile (fun c => c == 47)).reverse, ?_, ?_, ?_⟩
  · have h := List.takeWhile_append_dropWhile (fun c => c == 47) p.reverse
    have h2 := congrArg List.reverse h
    rw [List.reverse_append, List.reverse_reverse] at h2
    exact h2.symm
  · intro c hc
    have := List.mem_takeWhile_imp (List.mem_reverse.1 hc)
    simpa using this
  · unfold path.stripTrailingSlashes
    rw [List.getLast?_reverse]
    have h := List.head?_dropWhile_not (fun c => c == 47) p.reverse
    intro hcon
    rw [hcon] at h
    simp at h

theorem stripTrailingSlashes_of_not_trailing (p : GoString) (hlast : p.getLast? ≠ some 47) :
    path.stripTrailingSlashes p = p := by
  cases hp : p.reverse with
  | nil =>
    have : p = [] := by simpa using hp
    subst this
    rfl
  | cons c r =>
    have hc : c ≠ 47 := by
      intro h
      apply hlast
      rw [List.getLast?_eq_head?_reverse, hp, h]
      rfl
    unfold path.stripTrailingSlashes
    rw [hp, List.dropWhile_cons_of_neg (by simpa using hc), ← hp, List.reverse_reverse]

/-- For a name with something other than slashes in it, `path.Base` is the
final segment of the name without its trailing slashes. -/
theorem Base_eq_finalSegment_strip (p : GoString) (hq : path.stripTrailingSlashes p ≠ []) :
    path.Base p = finalSegment (path.stripTrailingSlashes p) := by
  obtain ⟨t, hp, -, hlast⟩ := split_trailing_slashes p
  have hpne : p ≠ [] := by
    rintro rfl
    exact hq rfl
  obtain ⟨a, hsplit, hxne, hx, -⟩ := split_finalSegment _ hq hlast
  have hb := (Base_eq_finalSegment_iff (path.stripTrailingSlashes p)).2 ⟨hq, hlast⟩
  have hidem : path.stripTrailingSlashes (path.stripTrailingSlashes p) =
      path.stripTrailingSlashes p := stripTrailingSlashes_of_not_trailing _ hlast
  rw [← hb]
  unfold path.Base
  rw [if_neg hpne, if_neg hq, hidem]

/-- For a name with something other than slashes in it, whose last non-empty
segment is neither `"."` nor `".."`, `path.Base (path.Clean name)` is that
segment. -/
theorem Base_Clean_eq_finalSegment_strip (p : GoString)
    (hq : path.stripTrailingSlashes p ≠ [])
    (hd : finalSegment (path.stripTrailingSlashes p) ≠ [46])
    (hdd : finalSegment (path.stripTrailingSlashes p) ≠ [46, 46]) :
    path.Base (path.Clean p) = finalSegment (path.stripTrailingSlashes p) := by
  obtain ⟨t, hp, ht, hlast⟩ := split_trailing_slashes p
  obtain ⟨a, hsplit, hxne, hx, ha⟩ := split_finalSegment _ hq hlast
  have := Base_Clean_of_split a _ t hxne hx hd hdd ha ht
  rw [← hsplit, ← hp] at this
  exact this

/-- On a non-empty name made of slashes only, `path.Base` gives `"/"`. -/
theorem Base_of_all_slashes (p : GoString) (hne : p ≠ [])
    (hq : path.stripTrailingSlashes p = []) : path.Base p = [47] := by
  unfold path.Base
  rw [if_neg hne, hq]
  rfl

/-- On a non-empty name made of slashes only, `path.Clean` gives `"/"`. -/
theorem Clean_of_all_slashes (p : GoString) (hne : p ≠ [])
    (hq : path.stripTrailingSlashes p = []) : path.Clean p = [47] := by
  obtain ⟨t, hp, ht, -⟩ := split_trailing_slashes p
  rw [hq, List.nil_append] at hp
  have hall : ∀ i, i < p.length → p.getD i 0 = 47 := by
    intro i hi
    rw [List.getD_eq_getElem _ _ hi]
    have hm : p[i] ∈ p := List.getElem_mem _
    exact ht _ (hp ▸ hm)
  have hlen : 0 < p.length := List.length_pos.2 hne
  unfold path.Clean
  rw [if_neg hne]
  have hroot : (p.getD 0 0 == 47) = true := by
    rw [hall 0 hlen]
    rfl
  simp only [hroot, if_true]
  rw [cleanLoop_slashes p true p.length 1 1 _ (fun i _ hi => hall i hi)]
  rfl

theorem HeaderNew_FileMode (t : tar.Header) (h : t.Typeflag ∈ registeredTypeCodes) :
    (HeaderNew t).1.FileMode = tar.headerFileInfo.Mode t := by
  simp [HeaderNew, TypeFlagFromByte_of_registered _ h]

/-- C2, amended: for a registered type code,
(1) `Basename` is `path.Base` of `Name`, the name being first put through
`path.Clean` when the record's `FileMode` has the directory bit (a directory);
(2) when `Name` without its trailing slashes is not empty and, for a
directory, the final segment of that stripped name is neither `"."` nor
`".."`, `Basename` is that final segment;
(3) when `Name` is not empty, does not end in `'/'` and, for a directory, its
final segment is neither `"."` nor `".."`, `Basename` is the final segment of
`Name`;
(4) `Basename` is `"."` for the empty name;
(5) `Basename` is `"/"` for a non-empty name made of slashes only;
(6) `Basename` is not the final segment of `Name` (which is empty, while
`Basename` never is) when `Name` is empty or ends in `'/'`.
For a directory whose last segment is `"."` or `".."` only (1) is stated. -/
theorem HeaderNew_Basename_finalSegment (h : tar.Header)
    (hreg : h.Typeflag ∈ registeredTypeCodes) :
    (HeaderNew h).1.Basename =
        (if fs.FileMode.IsDir (HeaderNew h).1.FileMode = true then
          path.Base (path.Clean h.Name)
        else path.Base h.Name) ∧
    (path.stripTrailingSlashes h.Name ≠ [] →
      (fs.FileMode.IsDir (HeaderNew h).1.FileMode = true →
        finalSegment (path.stripTrailingSlashes h.Name) ≠ ascii "." ∧
        finalSegment (path.stripTrailingSlashes h.Name) ≠ ascii "..") →
      (HeaderNew h).1.Basename = finalSegment (path.stripTrailingSlashes h.Name)) ∧
    (h.Name ≠ [] → h.Name.getLast? ≠ some 47 →
      (fs.FileMode.IsDir (HeaderNew h).1.FileMode = true →
        finalSegment h.Name ≠ ascii "." ∧ finalSegment h.Name ≠ ascii "..") →
      (HeaderNew h).1.Basename = finalSegment h.Name) ∧
    (h.Name = [] → (HeaderNew h).1.Basename = ascii ".") ∧
    (h.Name ≠ [] → path.stripTrailingSlashes h.Name = [] →
      (HeaderNew h).1.Basename = ascii "/") ∧
    ((h.Name = [] ∨ h.Name.getLast? = some 47) →
      (HeaderNew h).1.Basename ≠ finalSegment h.Name) := by
  have hb : (HeaderNew h).1.Basename =
      (if fs.FileMode.IsDir (HeaderNew h).1.FileMode = true then
        path.Base (path.Clean h.Name)
      else path.Base h.Name) := by
    rw [HeaderNew_Basename h hreg, HeaderNew_FileMode h hreg]
    rfl
  have hstrip : path.stripTrailingSlashes h.Name ≠ [] →
      (fs.FileMode.IsDir (HeaderNew h).1.FileMode = true →
        finalSegment (path.stripTrailingSlashes h.Name) ≠ ascii "." ∧
        finalSegment (path.stripTrailingSlashes h.Name) ≠ ascii "..") →
      (HeaderNew h).1.Basename = finalSegment (path.stripTrailingSlashes h.Name) := by
    intro hq hdir
    rw [hb]
    split
    · rename_i hd
      obtain ⟨h1, h2⟩ := hdir hd
      exact Base_Clean_eq_finalSegment_strip h.Name hq h1 h2
    · exact Base_eq_finalSegment_strip h.Name hq
  refine ⟨hb, hstrip, ?_, ?_, ?_, ?_⟩
  · intro hne hlast hdir
    have hs := stripTrailingSlashes_of_not_trailing h.Name hlast
    rw [hs] at hstrip
    exact hstrip hne hdir
  · intro hnil
    rw [hb, hnil]
    split <;> rfl
  · intro hne hq
    rw [hb]
    split
    · rw [Clean_of_all_slashes h.Name hne hq]
      rfl
    · exact Base_of_all_slashes h.Name hne hq
  · intro hbad
    rw [hb, finalSegment_eq_nil_of_trailing_slash h.Name hbad]
    split
    · exact Base_ne_nil _
    · exact Base_ne_nil _

/-- C2, amended, at the regular file `"sub/.hidden"`: its Basename is
`".hidden"`, the final segment of its name. -/
theorem HeaderNew_Basename_finalSegment_witness :
    (HeaderNew (rawHeader tar.TypeReg (ascii "sub/.hidden") 42 0o644)).1.Basename =
        finalSegment (rawHeader tar.TypeReg (ascii "sub/.hidden") 42 0o644).Name ∧
      finalSegment (ascii "sub/.hidden") = ascii ".hidden" :=
  ⟨(HeaderNew_Basename_finalSegment (rawHeader tar.TypeReg (ascii "sub/.hidden") 42 0o644)
      (by decide)).2.2.1 (by decide) (by decide) (by decide), by decide⟩

/-- Why directories with a last segment `"."` or `".."` are set apart: a
directory named `"a/."` gets Basename `"a"`, `path.Clean` having resolved the
final `"."`, while the final segment of its name is `"."`. -/
theorem Basename_directory_dot_example :
    (HeaderNew (rawHeader tar.TypeDir (ascii "a/.") 0 0o755)).1.Basename = ascii "a" ∧
    finalSegment (ascii "a/.") = ascii "." := by
  decide

/-! ### `TarReaderToHeaders` -/

theorem TarReaderToHeaders_step_ok {κ : Type} (yield : Yield κ) (fuel : Nat) (r : tar.Reader)
    (k : κ) (h : tar.Header) (hs : r.script r.calls = Except.ok h) :
    TarReaderToHeaders (fuel + 1) yield r k =
      if (yield (HeaderNew h).1 (HeaderNew h).2 k).1 = true then
        TarReaderToHeaders fuel yield { r with calls := r.calls + 1 }
          (yield (HeaderNew h).1 (HeaderNew h).2 k).2
      else some ({ r with calls := r.calls + 1 }, (yield (HeaderNew h).1 (HeaderNew h).2 k).2) := by
  rw [TarReaderToHeaders]
  simp only [tar.Reader.Next, hs]
  cases hy : (yield (HeaderNew h).1 (HeaderNew h).2 k).1 <;> simp [hy]

theorem TarReaderToHeaders_step_error {κ : Type} (yield : Yield κ) (fuel : Nat) (r : tar.Reader)
    (k : κ) (e : Error) (hs : r.script r.calls = Except.error e) :
    TarReaderToHeaders (fuel + 1) yield r k =
      if e = Error.EOF then some ({ r with calls := r.calls + 1 }, k)
      else some ({ r with calls := r.calls + 1 }, (yield Header.zero (some e) k).2) := by
  rw [TarReaderToHeaders]
  simp only [tar.Reader.Next, hs]

/-- While the decoder returns the headers of `hs` and the consumer answers
true, the loop of `TarReaderToHeaders` hands over their records in order. -/
theorem TarReaderToHeaders_through {κ : Type} (yield : Yield κ) (hs : List tar.Header) :
    ∀ (r : tar.Reader) (k : κ) (fuel : Nat),
      (∀ i h, hs[i]? = some h → r.script (r.calls + i) = Except.ok h) →
      (∀ pre h post, hs = pre ++ h :: post →
        (yield (HeaderNew h).1 (HeaderNew h).2 (feed yield (pre.map HeaderNew) k)).1 = true) →
      TarReaderToHeaders (fuel + hs.length) yield r k =
        TarReaderToHeaders fuel yield { r with calls := r.calls + hs.length }
          (feed yield (hs.map HeaderNew) k) := by
  induction hs with
  | nil => intro r k fuel _ _; rfl
  | cons h t ih =>
    intro r k fuel hscript hyes
    have h0 : r.script r.calls = Except.ok h := by simpa using hscript 0 h (by simp)
    have hy0 : (yield (HeaderNew h).1 (HeaderNew h).2 k).1 = true := by
      simpa [feed] using hyes [] h t rfl
    have hlen : fuel + (h :: t).length = (fuel + t.length) + 1 := by simp; omega
    rw [hlen, TarReaderToHeaders_step_ok yield _ r k h h0, if_pos hy0]
    rw [ih { r with calls := r.calls + 1 } _ fuel]
    · simp only [List.length_cons, List.map_cons, feed, List.foldl_cons]
      have : r.calls + 1 + t.length = r.calls + (t.length + 1) := by omega
      rw [this]
    · intro i h' hi
      have := hscript (i + 1) h' (by simpa using hi)
      simpa [Nat.add_assoc, Nat.add_comm 1 i] using this
    · intro pre h' post heq
      have := hyes (h :: pre) h' post (by simp [heq])
      simpa [feed] using this

theorem feed_recorder (answer : List (Header × Option Error) → Bool)
    (ps seen : List (Header × Option Error)) :
    feed (recorder answer) ps seen = seen ++ ps := by
  induction ps generalizing seen with
  | nil => simp [feed]
  | cons p t ih =>
    have := ih (seen ++ [p])
    simp only [feed, List.foldl_cons] at this ⊢
    rw [show (recorder answer p.1 p.2 seen).2 = seen ++ [p] from rfl, this]
    simp

/-- C3: when the decoder returns the `N` headers of `hs`, all with registered
type codes, and then end-of-stream, a consumer that never stops is handed
exactly the `N` pairs `HeaderNew h`, in input order, each with a nil error,
and nothing after them; the run returns once fuel exceeds `N`. -/
theorem TarReaderToHeaders_valid_stream (hs : List tar.Header) (r : tar.Reader) (fuel : Nat)
    (hreg : ∀ h ∈ hs, h.Typeflag ∈ registeredTypeCodes)
    (hscript : ∀ i h, hs[i]? = some h → r.script (r.calls + i) = Except.ok h)
    (heof : r.script (r.calls + hs.length) = Except.error Error.EOF)
    (hfuel : hs.length < fuel) :
    TarReaderToHeaders fuel (recorder (fun _ => true)) r [] =
        some ({ r with calls := r.calls + hs.length + 1 }, hs.map HeaderNew) ∧
      (hs.map HeaderNew).length = hs.length ∧
      (∀ p ∈ hs.map HeaderNew, p.2 = none) ∧
      (∀ (i : Nat) (h : tar.Header), hs[i]? = some h → (hs.map HeaderNew)[i]? = some ((HeaderNew h).1, (none : Option Error))) := by
  refine ⟨?_, by simp, ?_, ?_⟩
  · obtain ⟨f, rfl⟩ : ∃ f, fuel = (f + 1) + hs.length := ⟨fuel - hs.length - 1, by omega⟩
    rw [TarReaderToHeaders_through (recorder (fun _ => true)) hs r [] (f + 1) hscript
      (fun _ _ _ _ => rfl)]
    rw [TarReaderToHeaders_step_error _ f _ _ Error.EOF heof, if_pos rfl, feed_recorder]
    simp
  · intro p hp
    obtain ⟨h, hh, rfl⟩ := List.mem_map.1 hp
    exact HeaderNew_err_of_registered h (hreg h hh)
  · intro i h hi
    have hmem : h ∈ hs := List.getElem?_mem hi
    have he := HeaderNew_err_of_registered h (hreg h hmem)
    rw [List.getElem?_map, hi]
    simp only [Option.map_some']
    rw [← he]

/-- C3 at a concrete archive of two entries. -/
theorem TarReaderToHeaders_valid_stream_witness :
    TarReaderToHeaders 3 (recorder (fun _ => true))
        { script := scriptOf [rawHeader 48 (ascii "a") 1 0o644, rawHeader 53 (ascii "d/") 0 0o755]
            (Except.error Error.EOF), calls := 0 } [] =
      some ({ script := scriptOf [rawHeader 48 (ascii "a") 1 0o644,
                rawHeader 53 (ascii "d/") 0 0o755] (Except.error Error.EOF), calls := 3 },
        [rawHeader 48 (ascii "a") 1 0o644, rawHeader 53 (ascii "d/") 0 0o755].map HeaderNew) :=
  (TarReaderToHeaders_valid_stream
    [rawHeader 48 (ascii "a") 1 0o644, rawHeader 53 (ascii "d/") 0 0o755]
    { script := scriptOf [rawHeader 48 (ascii "a") 1 0o644, rawHeader 53 (ascii "d/") 0 0o755]
        (Except.error Error.EOF), calls := 0 } 3
    (by decide)
    (by
      intro i h hi
      match i, hi with
      | 0, hi => simp at hi; subst hi; rfl
      | 1, hi => simp at hi; subst hi; rfl
      | _ + 2, hi => simp at hi)
    rfl (by decide)).1

theorem recorder_prefix_pulls (answer : List (Header × Option Error) → Bool)
    (hs : List tar.Header)
    (hpull : ∀ j, j < hs.length → answer ((hs.take (j + 1)).map HeaderNew) = true) :
    ∀ pre h post, hs = pre ++ h :: post →
      (recorder answer (HeaderNew h).1 (HeaderNew h).2
        (feed (recorder answer) (pre.map HeaderNew) [])).1 = true := by
  intro pre h post heq
  have hj := hpull pre.length (by simp [heq])
  have htake : hs.take (pre.length + 1) = pre ++ [h] := by
    rw [heq, List.take_append_eq_append_take]
    simp
  rw [htake] at hj
  rw [feed_recorder]
  simpa [recorder] using hj

/-- C4: when the first `k - 1` calls of `Next` return the headers of `hs`
(registered type codes) and call `k` returns an error `e` other than
end-of-stream, a consumer that pulls through the `k - 1` records is handed
those records in order, then the one pair (zero record, `e`), and the run
ends after exactly `k` calls of `Next`, whatever the consumer answers to the
error pair. -/
theorem TarReaderToHeaders_decode_error (hs : List tar.Header) (e : Error) (r : tar.Reader)
    (fuel : Nat) (answer : List (Header × Option Error) → Bool)
    (hreg : ∀ h ∈ hs, h.Typeflag ∈ registeredTypeCodes)
    (hscript : ∀ i h, hs[i]? = some h → r.script (r.calls + i) = Except.ok h)
    (herr : r.script (r.calls + hs.length) = Except.error e)
    (hne : e ≠ Error.EOF)
    (hpull : ∀ j, j < hs.length → answer ((hs.take (j + 1)).map HeaderNew) = true)
    (hfuel : hs.length < fuel) :
    TarReaderToHeaders fuel (recorder answer) r [] =
        some ({ r with calls := r.calls + hs.length + 1 },
          hs.map HeaderNew ++ [(Header.zero, some e)]) ∧
      (∀ p ∈ hs.map HeaderNew, p.2 = none) := by
  constructor
  · obtain ⟨f, rfl⟩ : ∃ f, fuel = (f + 1) + hs.length := ⟨fuel - hs.length - 1, by omega⟩
    rw [TarReaderToHeaders_through (recorder answer) hs r [] (f + 1) hscript
      (recorder_prefix_pulls answer hs hpull)]
    rw [TarReaderToHeaders_step_error _ f _ _ e herr, if_neg hne, feed_recorder]
    simp [recorder]
  · intro p hp
    obtain ⟨h, hh, rfl⟩ := List.mem_map.1 hp
    exact HeaderNew_err_of_registered h (hreg h hh)

/-- C4 at a concrete decoder: one valid entry, then a decode error; the
consumer answers true to everything, the error pair included. -/
theorem TarReaderToHeaders_decode_error_witness :
    TarReaderToHeaders 5 (recorder (fun _ => true))
        { script := scriptOf [rawHeader 48 (ascii "a") 1 0o644] (Except.error (Error.other 7)),
          calls := 0 } [] =
      some ({ script := scriptOf [rawHeader 48 (ascii "a") 1 0o644]
                (Except.error (Error.other 7)), calls := 2 },
        [rawHeader 48 (ascii "a") 1 0o644].map HeaderNew ++
          [(Header.zero, some (Error.other 7))]) :=
  (TarReaderToHeaders_decode_error [rawHeader 48 (ascii "a") 1 0o644] (Error.other 7)
    { script := scriptOf [rawHeader 48 (ascii "a") 1 0o644] (Except.error (Error.other 7)),
      calls := 0 } 5 (fun _ => true)
    (by decide)
    (by
      intro i h hi
      match i, hi with
      | 0, hi => simp at hi; subst hi; rfl
      | _ + 1, hi => simp at hi)
    rfl (by decide) (fun _ _ => rfl) (by decide)).1

/-- C5 as stated fails: after an entry with an unregistered type code (0) a
consumer that keeps pulling is handed the next entry as well, and `Next` is
called until end-of-stream (3 calls for 2 entries). -/
theorem TarReaderToHeaders_goes_on_after_type_error :
    (rawHeader 0 (ascii "a") 1 0o644).Typeflag ∉ registeredTypeCodes ∧
    (TarReaderToHeaders 5 (recorder (fun _ => true))
        { script := scriptOf [rawHeader 0 (ascii "a") 1 0o644, rawHeader 48 (ascii "b") 1 0o644]
            (Except.error Error.EOF), calls := 0 } []).map (fun p => (p.1.calls, p.2)) =
      some (3, [(Header.zero, some Error.ErrInvalidTypeFlag),
        HeaderNew (rawHeader 48 (ascii "b") 1 0o644)]) ∧
    (HeaderNew (rawHeader 48 (ascii "b") 1 0o644)).2 = none := by
  decide

/-- C5, amended: when entry `k` decodes but carries an unregistered type
code, the pair yielded for it is (zero record, `ErrInvalidTypeFlag`). If the
consumer stops on that pair the run ends there, after exactly `k` calls of
`Next`; if the consumer keeps pulling, the loop goes on with call `k + 1`. -/
theorem TarReaderToHeaders_type_error (hs : List tar.Header) (bad : tar.Header)
    (r : tar.Reader) (fuel : Nat) (answer : List (Header × Option Error) → Bool)
    (hscript : ∀ i h, hs[i]? = some h → r.script (r.calls + i) = Except.ok h)
    (hbad : r.script (r.calls + hs.length) = Except.ok bad)
    (hunreg : bad.Typeflag ∉ registeredTypeCodes)
    (hpull : ∀ j, j < hs.length → answer ((hs.take (j + 1)).map HeaderNew) = true) :
    (answer (hs.map HeaderNew ++ [(Header.zero, some Error.ErrInvalidTypeFlag)]) = false →
      TarReaderToHeaders (fuel + 1 + hs.length) (recorder answer) r [] =
        some ({ r with calls := r.calls + hs.length + 1 },
          hs.map HeaderNew ++ [(Header.zero, some Error.ErrInvalidTypeFlag)])) ∧
    (answer (hs.map HeaderNew ++ [(Header.zero, some Error.ErrInvalidTypeFlag)]) = true →
      TarReaderToHeaders (fuel + 1 + hs.length) (recorder answer) r [] =
        TarReaderToHeaders fuel (recorder answer) { r with calls := r.calls + hs.length + 1 }
          (hs.map HeaderNew ++ [(Header.zero, some Error.ErrInvalidTypeFlag)])) := by
  have hrun := TarReaderToHeaders_through (recorder answer) hs r [] (fuel + 1) hscript
    (recorder_prefix_pulls answer hs hpull)
  have hstep := TarReaderToHeaders_step_ok (recorder answer) fuel
    { r with calls := r.calls + hs.length } (feed (recorder answer) (hs.map HeaderNew) [])
    bad hbad
  rw [HeaderNew_of_not_registered bad hunreg, feed_recorder] at hstep
  simp only [recorder, List.nil_append] at hstep
  constructor
  · intro hans
    rw [hrun, feed_recorder]
    simp only [recorder, List.nil_append]
    rw [hstep, if_neg (by simp [hans])]
  · intro hans
    rw [hrun, feed_recorder]
    simp only [recorder, List.nil_append]
    rw [hstep, if_pos hans]

/-- C5, amended, at a concrete decoder: the first entry has type code 0 and
the consumer stops on the error pair; `Next` has been called once. -/
theorem TarReaderToHeaders_type_error_witness :
    TarReaderToHeaders (0 + 1 + 0) (recorder (fun _ => false))
        { script := scriptOf [rawHeader 0 (ascii "a") 1 0o644, rawHeader 48 (ascii "b") 1 0o644]
            (Except.error Error.EOF), calls := 0 } [] =
      some ({ script := scriptOf [rawHeader 0 (ascii "a") 1 0o644,
                rawHeader 48 (ascii "b") 1 0o644] (Except.error Error.EOF), calls := 1 },
        [(Header.zero, some Error.ErrInvalidTypeFlag)]) :=
  (TarReaderToHeaders_type_error [] (rawHeader 0 (ascii "a") 1 0o644)
    { script := scriptOf [rawHeader 0 (ascii "a") 1 0o644, rawHeader 48 (ascii "b") 1 0o644]
        (Except.error Error.EOF), calls := 0 } 0 (fun _ => false)
    (by intro i h hi; simp at hi) rfl (by decide) (by intro j hj; simp at hj)).1 rfl

/-! ### The buffered writer over a sink that never fails -/

theorem Sink_Write_good (s : Sink) (p : GoString) (h : s.room = none) :
    s.Write p = ((p.length, none), { s with data := s.data ++ p }) := by
  simp [Sink.Write, h]

theorem Flush_good (b : bufio.Writer) (herr : b.err = none) (hroom : b.wr.room = none) :
    b.Flush.1 = none ∧ b.Flush.2.err = none ∧ b.Flush.2.buf = [] ∧
      b.Flush.2.wr.room = none ∧ b.Flush.2.wr.data = b.wr.data ++ b.buf ∧
      b.Flush.2.size = b.size := by
  unfold bufio.Writer.Flush
  by_cases hb : b.buf.length = 0
  · have hnil : b.buf = [] := List.length_eq_zero.1 hb
    simp [herr, hb, hnil, hroom]
  · simp [herr, hb, Sink_Write_good b.wr b.buf hroom, hroom]

theorem writeLoop_nil (fuel : Nat) (b : bufio.Writer) (nn : Nat) :
    bufio.Writer.writeLoop fuel b [] nn = (b, [], nn) := by
  cases fuel with
  | zero => rfl
  | succ f => simp [bufio.Writer.writeLoop]

/-- One round of the loop of `Write` from an empty buffer. -/
theorem writeLoop_empty_buffer (fuel : Nat) (b : bufio.Writer) (p : GoString) (nn : Nat)
    (herr : b.err = none) (hroom : b.wr.room = none) (hbuf : b.buf = []) :
    let res := bufio.Writer.writeLoop (fuel + 1) b p nn
    res.1.err = none ∧ res.1.wr.room = none ∧
      res.1.wr.data ++ res.1.buf ++ res.2.1 = b.wr.data ++ b.buf ++ p ∧
      res.2.1.length ≤ res.1.Available := by
  intro res
  by_cases hc : p.length > b.Available
  · have hres : res = ({ b with err := none, wr := { b.wr with data := b.wr.data ++ p } },
        [], nn + p.length) := by
      show bufio.Writer.writeLoop (fuel + 1) b p nn = _
      rw [bufio.Writer.writeLoop]
      simp only [hc, herr, and_self, if_true, bufio.Writer.Buffered, hbuf, List.length_nil,
        Sink_Write_good b.wr p hroom, List.drop_length, writeLoop_nil]
    rw [hres]
    simp [hroom, hbuf]
  · have hres : res = (b, p, nn) := by
      show bufio.Writer.writeLoop (fuel + 1) b p nn = _
      rw [bufio.Writer.writeLoop]
      simp [hc]
    rw [hres]
    exact ⟨herr, hroom, rfl, Nat.le_of_not_gt hc⟩

/-- The loop of `Write` over a sink that never fails: nothing is lost, and
two rounds bring it to its exit. -/
theorem writeLoop_good (fuel : Nat) (b : bufio.Writer) (p : GoString) (nn : Nat)
    (herr : b.err = none) (hroom : b.wr.room = none) :
    let res := bufio.Writer.writeLoop (fuel + 2) b p nn
    res.1.err = none ∧ res.1.wr.room = none ∧
      res.1.wr.data ++ res.1.buf ++ res.2.1 = b.wr.data ++ b.buf ++ p ∧
      res.2.1.length ≤ res.1.Available := by
  by_cases hbuf : b.buf = []
  · exact writeLoop_empty_buffer (fuel + 1) b p nn herr hroom hbuf
  · intro res
    by_cases hc : p.length > b.Available
    · have hlen : b.buf.length ≠ 0 := fun h => hbuf (List.length_eq_zero.1 h)
      have hfl := Flush_good { b with buf := b.buf ++ p.take (min b.Available p.length) }
        herr hroom
      have hnext := writeLoop_empty_buffer fuel
        (bufio.Writer.Flush { b with buf := b.buf ++ p.take (min b.Available p.length) }).2
        (p.drop (min b.Available p.length)) (nn + min b.Available p.length)
        hfl.2.1 hfl.2.2.2.1 hfl.2.2.1
      have hres : res = bufio.Writer.writeLoop (fuel + 1)
          (bufio.Writer.Flush { b with buf := b.buf ++ p.take (min b.Available p.length) }).2
          (p.drop (min b.Available p.length)) (nn + min b.Available p.length) := by
        show bufio.Writer.writeLoop (fuel + 1 + 1) b p nn = _
        rw [bufio.Writer.writeLoop]
        simp only [hc, herr, and_self, if_true, bufio.Writer.Buffered, hlen, if_false]
      rw [hres]
      refine ⟨hnext.1, hnext.2.1, ?_, hnext.2.2.2⟩
      rw [hnext.2.2.1, hfl.2.2.1, hfl.2.2.2.2.1]
      simp [List.append_assoc]
    · have hres : res = (b, p, nn) := by
        show bufio.Writer.writeLoop (fuel + 1 + 1) b p nn = _
        rw [bufio.Writer.writeLoop]
        simp [hc]
      rw [hres]
      exact ⟨herr, hroom, rfl, Nat.le_of_not_gt hc⟩

/-- Method `Write` over a sink that never fails returns no error and adds
its argument to what has been written. -/
theorem Write_good (b : bufio.Writer) (out p : GoString) (h : GoodWriter b out) :
    (b.Write p).1.2 = none ∧ GoodWriter (b.Write p).2 (out ++ p) := by
  obtain ⟨herr, hroom, hout⟩ := h
  have hl := writeLoop_good 1 b p 0 herr hroom
  simp only at hl
  obtain ⟨h1, h2, h3, h4⟩ := hl
  unfold bufio.Writer.Write
  generalize bufio.Writer.writeLoop 3 b p 0 = res at h1 h2 h3 h4
  obtain ⟨b', p', nn'⟩ := res
  simp only at h1 h2 h3 h4
  have hmin : min b'.Available p'.length = p'.length := Nat.min_eq_right h4
  simp only [h1, ne_eq, not_true_eq_false, if_false, hmin, List.take_length]
  refine ⟨trivial, rfl, h2, ?_⟩
  show b'.wr.data ++ (b'.buf ++ p') = out ++ p
  rw [← hout, ← List.append_assoc, h3]

theorem Flush_GoodWriter (b : bufio.Writer) (out : GoString) (h : GoodWriter b out) :
    b.Flush.2.wr.data = out := by
  obtain ⟨herr, hroom, hout⟩ := h
  rw [(Flush_good b herr hroom).2.2.2.2.1, hout]

/-! ### The drain loop of `WriterToHeadersWriter` -/

theorem pullsThrough_split {κ : Type} (yield : Yield κ) :
    ∀ (pre : List (Header × Option Error)) (p : Header × Option Error)
      (post : List (Header × Option Error)) (k : κ),
      pullsThrough yield (pre ++ p :: post) k →
      (yield p.1 p.2 (feed yield pre k)).1 = true := by
  intro pre
  induction pre with
  | nil => intro p post k h; exact h.1
  | cons q t ih =>
    intro p post k h
    have := ih p post _ h.2
    simpa [feed] using this

/-- While the consumer answers true, `seqOfList` hands over its pairs in order. -/
theorem seqOfList_through {κ : Type} (yield : Yield κ) :
    ∀ (ps rest : List (Header × Option Error)) (k : κ),
      pullsThrough yield ps k →
      seqOfList yield (ps ++ rest) k = seqOfList yield rest (feed yield ps k) := by
  intro ps
  induction ps with
  | nil => intro rest k _; rfl
  | cons p t ih =>
    intro rest k h
    obtain ⟨hd, e⟩ := p
    rw [List.cons_append, seqOfList]
    simp only [h.1, Bool.not_true, Bool.false_eq_true, if_false]
    rw [ih rest _ h.2]
    rfl

theorem Encode_good (marshal : Header → Except Error GoString) (enc : json.Encoder)
    (v : Header) (b out : GoString) (herr : enc.err = none) (hw : GoodWriter enc.w out)
    (hm : marshal v = Except.ok b) :
    (enc.Encode marshal v).1 = none ∧ (enc.Encode marshal v).2.err = none ∧
      GoodWriter (enc.Encode marshal v).2.w (out ++ (b ++ [10])) := by
  obtain ⟨h1, h2⟩ := Write_good enc.w out (b ++ [10]) hw
  unfold json.Encoder.Encode
  simp only [herr, ne_eq, not_true_eq_false, if_false, hm]
  cases hwr : enc.w.Write (b ++ [10]) with
  | mk r w =>
    obtain ⟨n, err⟩ := r
    rw [hwr] at h1 h2
    simp only at h1 h2
    subst h1
    simp [herr, h2]

/-- The loop body on a record, with no cancellation and no failure: the
record's serialization is written and the loop goes on. -/
theorem loopBody_record (marshal : Header → Except Error GoString) (ctx : context.Context)
    (hdr : Header) (b out : GoString) (st : LoopState) (n : Nat)
    (hst : GoodState st out n) (hctx : ctx.done n = none) (hm : marshal hdr = Except.ok b) :
    (loopBody marshal ctx hdr none st).1 = true ∧
      GoodState (loopBody marshal ctx hdr none st).2 (out ++ (b ++ [10])) (n + 1) := by
  obtain ⟨herr, hw, hp, hr⟩ := hst
  obtain ⟨h1, h2, h3⟩ := Encode_good marshal st.enc hdr b out herr hw hm
  unfold loopBody
  simp only [hp, hctx]
  cases henc : st.enc.Encode marshal hdr with
  | mk e enc =>
    rw [henc] at h1 h2 h3
    simp only at h1 h2 h3
    subst h1
    exact ⟨rfl, h2, h3, rfl, hr⟩

/-- The loop body when the context is done: it returns the context's error
without looking at the pair. -/
theorem loopBody_cancelled (marshal : Header → Except Error GoString) (ctx : context.Context)
    (hdr : Header) (e : Option Error) (st : LoopState) (cerr : Error)
    (hctx : ctx.done st.polls = some cerr) :
    loopBody marshal ctx hdr e st =
      (false, { st with polls := st.polls + 1, ret := some (some cerr) }) := by
  unfold loopBody
  simp only [hctx]

/-- The loop body on a pair with an error, the context not done: it returns
that error and writes nothing. -/
theorem loopBody_error (marshal : Header → Except Error GoString) (ctx : context.Context)
    (hdr : Header) (e : Error) (st : LoopState) (hctx : ctx.done st.polls = none) :
    loopBody marshal ctx hdr (some e) st =
      (false, { st with polls := st.polls + 1, ret := some (some e) }) := by
  unfold loopBody
  simp only [hctx]

/-- A run of records through the loop body, with no cancellation and no
failure: the loop goes through them all and their serializations are written
in order. -/
theorem feed_loopBody (marshal : Header → Except Error GoString) (ser : Header → GoString)
    (ctx : context.Context) :
    ∀ (rs : List Header) (st : LoopState) (out : GoString) (n : Nat),
      GoodState st out n →
      (∀ i, i < rs.length → ctx.done (n + i) = none) →
      (∀ hdr ∈ rs, marshal hdr = Except.ok (ser hdr)) →
      pullsThrough (loopBody marshal ctx) (rs.map (fun hdr => (hdr, none))) st ∧
        GoodState (feed (loopBody marshal ctx) (rs.map (fun hdr => (hdr, none))) st)
          (out ++ outputOf ser rs) (n + rs.length) := by
  intro rs
  induction rs with
  | nil =>
    intro st out n hst _ _
    exact ⟨trivial, by simpa [feed, outputOf] using hst⟩
  | cons hdr t ih =>
    intro st out n hst hctx hser
    obtain ⟨h1, h2⟩ := loopBody_record marshal ctx hdr (ser hdr) out st n hst
      (by simpa using hctx 0 (by simp)) (hser hdr (by simp))
    obtain ⟨h3, h4⟩ := ih (loopBody marshal ctx hdr none st).2 (out ++ (ser hdr ++ [10])) (n + 1)
      h2 (fun i hi => by
        have := hctx (i + 1) (by simpa using hi)
        simpa [Nat.add_assoc, Nat.add_comm 1 i] using this)
      (fun x hx => hser x (List.mem_cons_of_mem _ hx))
    refine ⟨⟨h1, h3⟩, ?_⟩
    have hlen : n + (hdr :: t).length = n + 1 + t.length := by simp; omega
    have hout : out ++ outputOf ser (hdr :: t) = out ++ (ser hdr ++ [10]) ++ outputOf ser t := by
      simp [outputOf, List.append_assoc]
    rw [hlen, hout]
    simpa [feed] using h4

/-- A sequence of pairs is its records before the first error, followed by
nothing or by the pair that carries the first error. -/
theorem split_at_firstError (ps : List (Header × Option Error)) :
    (ps = (recordsBeforeError ps).map (fun hdr => (hdr, none)) ∧ firstError ps = none) ∨
    ∃ hdr e rest, ps = (recordsBeforeError ps).map (fun hdr => (hdr, none)) ++ (hdr, some e) :: rest ∧
      firstError ps = some e := by
  induction ps with
  | nil => left; exact ⟨rfl, rfl⟩
  | cons p t ih =>
    obtain ⟨hdr, e⟩ := p
    cases e with
    | some e => right; exact ⟨hdr, e, t, rfl, rfl⟩
    | none =>
      rcases ih with ⟨h1, h2⟩ | ⟨hdr', e', rest, h1, h2⟩
      · left
        refine ⟨?_, h2⟩
        show (hdr, none) :: t = (hdr, none) :: (recordsBeforeError t).map (fun hdr => (hdr, none))
        rw [← h1]
      · right
        refine ⟨hdr', e', rest, ?_, h2⟩
        show (hdr, none) :: t =
          (hdr, none) :: ((recordsBeforeError t).map (fun hdr => (hdr, none)) ++ (hdr', some e') :: rest)
        rw [← h1]

theorem GoodState_init (wtr : Sink) (hsink : wtr.room = none) :
    GoodState { enc := json.NewEncoder (bufio.NewWriter wtr), polls := 0, ret := none }
      wtr.data 0 :=
  ⟨rfl, ⟨rfl, hsink, by simp [json.NewEncoder, bufio.NewWriter]⟩, rfl, rfl⟩

/-- After a loop that no `return` has left: the result is nil and the sink
holds everything written. -/
theorem afterLoop_good {σ : Type} (src : σ) (st : LoopState) (out : GoString) (n : Nat)
    (hst : GoodState st out n) :
    (afterLoop (some (src, st))).map (fun res => (res.2.1.data, res.2.2)) = some (out, none) := by
  obtain ⟨-, hw, -, hr⟩ := hst
  simp [afterLoop, hr, Flush_GoodWriter _ _ hw]

/-- After a loop left by a `return` of error `e` that wrote nothing more. -/
theorem afterLoop_returned {σ : Type} (src : σ) (st : LoopState) (out : GoString) (n : Nat)
    (e : Error) (hst : GoodState st out n) :
    (afterLoop (some (src, { st with polls := st.polls + 1, ret := some (some e) }))).map
      (fun res => (res.2.1.data, res.2.2)) = some (out, some e) := by
  obtain ⟨-, hw, -, -⟩ := hst
  simp [afterLoop, Flush_GoodWriter _ _ hw]

/-- The drain of records `rs` followed by the pairs `rest`, with no
cancellation and no failure over `rs`: the loop reaches `rest` with the
records written. -/
theorem drain_records (marshal : Header → Except Error GoString) (ser : Header → GoString)
    (wtr : Sink) (rs : List Header) (rest : List (Header × Option Error))
    (ctx : context.Context)
    (hctx : ∀ i, i < rs.length → ctx.done i = none) (hsink : wtr.room = none)
    (hser : ∀ hdr ∈ rs, marshal hdr = Except.ok (ser hdr)) :
    ∃ st, GoodState st (wtr.data ++ outputOf ser rs) rs.length ∧
      WriterToHeadersWriter marshal wtr seqOfList (rs.map (fun hdr => (hdr, none)) ++ rest) ctx =
        afterLoop (seqOfList (loopBody marshal ctx) rest st) := by
  obtain ⟨hpull, hgood⟩ := feed_loopBody marshal ser ctx rs _ wtr.data 0
    (GoodState_init wtr hsink) (fun i hi => by simpa using hctx i hi) hser
  refine ⟨_, by simpa using hgood, ?_⟩
  unfold WriterToHeadersWriter
  simp only
  rw [seqOfList_through (loopBody marshal ctx) _ rest _ hpull]

/-- C6: with no cancellation, a sink that never fails and records that
serialize, the function returned by `WriterToHeadersWriter` leaves in the
sink the serializations, in order, of the records before the first pair with
a non-nil error (all of them when there is none), nothing for that pair or
after it, and returns that first error (nil when there is none). -/
theorem WriterToHeadersWriter_writes_until_first_error
    (marshal : Header → Except Error GoString) (ser : Header → GoString) (wtr : Sink)
    (ps : List (Header × Option Error)) (ctx : context.Context)
    (hctx : ∀ i, ctx.done i = none) (hsink : wtr.room = none)
    (hser : ∀ hdr ∈ recordsBeforeError ps, marshal hdr = Except.ok (ser hdr)) :
    (WriterToHeadersWriter marshal wtr seqOfList ps ctx).map (fun res => (res.2.1.data, res.2.2)) =
      some (wtr.data ++ outputOf ser (recordsBeforeError ps), firstError ps) := by
  rcases split_at_firstError ps with ⟨h1, h2⟩ | ⟨hdr, e, rest, h1, h2⟩
  · obtain ⟨st, hst, hrun⟩ := drain_records marshal ser wtr (recordsBeforeError ps) [] ctx
      (fun i _ => hctx i) hsink hser
    rw [List.append_nil, ← h1] at hrun
    rw [hrun, h2, seqOfList]
    exact afterLoop_good _ st _ _ hst
  · obtain ⟨st, hst, hrun⟩ := drain_records marshal ser wtr (recordsBeforeError ps)
      ((hdr, some e) :: rest) ctx (fun i _ => hctx i) hsink hser
    rw [← h1] at hrun
    rw [hrun, h2, seqOfList, loopBody_error marshal ctx hdr e st (hctx _)]
    simp only [Bool.not_false, if_true]
    exact afterLoop_returned _ st _ _ e hst

/-- C6 at a concrete sequence: a record, a pair with an error, a record. -/
theorem WriterToHeadersWriter_writes_until_first_error_witness :
    (WriterToHeadersWriter marshalName goodSink seqOfList
        [((HeaderNew (rawHeader 48 (ascii "a") 1 0o644)).1, none),
         (Header.zero, some (Error.other 3)),
         ((HeaderNew (rawHeader 48 (ascii "b") 1 0o644)).1, none)] background).map
      (fun res => (res.2.1.data, res.2.2)) =
      some (goodSink.data ++ outputOf (fun hdr => [34] ++ hdr.Name ++ [34])
        (recordsBeforeError [((HeaderNew (rawHeader 48 (ascii "a") 1 0o644)).1, none),
         (Header.zero, some (Error.other 3)),
         ((HeaderNew (rawHeader 48 (ascii "b") 1 0o644)).1, none)]),
        firstError [((HeaderNew (rawHeader 48 (ascii "a") 1 0o644)).1, none),
         (Header.zero, some (Error.other 3)),
         ((HeaderNew (rawHeader 48 (ascii "b") 1 0o644)).1, none)]) :=
  WriterToHeadersWriter_writes_until_first_error marshalName
    (fun hdr => [34] ++ hdr.Name ++ [34]) goodSink _ background (fun _ => rfl) rfl
    (fun _ _ => rfl)

/-- C7: of `N` records, with cancellation requested after exactly `m < N` of
them have been drained, the function returned by `WriterToHeadersWriter`
writes those `m` records in order, does not serialize record `m + 1`, and
returns the context's error. -/
theorem WriterToHeadersWriter_cancelled_after
    (marshal : Header → Except Error GoString) (ser : Header → GoString) (wtr : Sink)
    (rs : List Header) (ctx : context.Context) (m : Nat) (cerr : Error)
    (hm : m < rs.length)
    (hbefore : ∀ i, i < m → ctx.done i = none) (hcancel : ctx.done m = some cerr)
    (hsink : wtr.room = none)
    (hser : ∀ hdr ∈ rs.take m, marshal hdr = Except.ok (ser hdr)) :
    (WriterToHeadersWriter marshal wtr seqOfList (rs.map (fun hdr => (hdr, none))) ctx).map
        (fun res => (res.2.1.data, res.2.2)) =
      some (wtr.data ++ outputOf ser (rs.take m), some cerr) := by
  have hlen : (rs.take m).length = m := by simp; omega
  obtain ⟨x, t, hdrop⟩ : ∃ x t, rs.drop m = x :: t := by
    cases hd : rs.drop m with
    | nil => simp at hd; omega
    | cons x t => exact ⟨x, t, rfl⟩
  obtain ⟨st, hst, hrun⟩ := drain_records marshal ser wtr (rs.take m)
    ((x, none) :: t.map (fun hdr => (hdr, none))) ctx
    (fun i hi => hbefore i (by omega)) hsink hser
  have hps : rs.map (fun hdr => (hdr, (none : Option Error))) =
      (rs.take m).map (fun hdr => (hdr, none)) ++ (x, none) :: t.map (fun hdr => (hdr, none)) := by
    conv_lhs => rw [← List.take_append_drop m rs, hdrop]
    simp
  have hpolls : st.polls = m := by rw [hst.2.2.1, hlen]
  rw [hps, hrun, seqOfList, loopBody_cancelled marshal ctx x none st cerr (by rw [hpolls]; exact hcancel)]
  simp only [Bool.not_false, if_true]
  exact afterLoop_returned _ st _ _ cerr hst

/-- C7 at a concrete sequence: three records, cancellation after one. -/
theorem WriterToHeadersWriter_cancelled_after_witness :
    (WriterToHeadersWriter marshalName goodSink seqOfList
        ([(HeaderNew (rawHeader 48 (ascii "a") 1 0o644)).1,
          (HeaderNew (rawHeader 53 (ascii "d/") 0 0o755)).1,
          (HeaderNew (rawHeader 48 (ascii "d/b") 2 0o600)).1].map (fun hdr => (hdr, none)))
        (cancelledFrom 1)).map (fun res => (res.2.1.data, res.2.2)) =
      some (goodSink.data ++ outputOf (fun hdr => [34] ++ hdr.Name ++ [34])
        ([(HeaderNew (rawHeader 48 (ascii "a") 1 0o644)).1,
          (HeaderNew (rawHeader 53 (ascii "d/") 0 0o755)).1,
          (HeaderNew (rawHeader 48 (ascii "d/b") 2 0o600)).1].take 1), some Error.Canceled) :=
  WriterToHeadersWriter_cancelled_after marshalName (fun hdr => [34] ++ hdr.Name ++ [34])
    goodSink _ (cancelledFrom 1) 1 Error.Canceled (by decide)
    (fun i hi => by
      have h0 : i = 0 := by omega
      subst h0
      rfl)
    rfl rfl (fun _ _ => rfl)

theorem map_HeaderNew_of_registered (hs : List tar.Header)
    (hreg : ∀ h ∈ hs, h.Typeflag ∈ registeredTypeCodes) :
    hs.map HeaderNew = (hs.map (fun h => (HeaderNew h).1)).map (fun hdr => (hdr, none)) := by
  rw [List.map_map]
  apply List.map_congr_left
  intro h hh
  have := HeaderNew_err_of_registered h (hreg h hh)
  simp only [Function.comp]
  rw [← this]

/-- C8 as stated fails: with one entry and cancellation requested before
anything is drained (`m = 0`), `Next` is called once, so entry `m + 1` is
decoded; it is not written. -/
theorem WriterToHeadersWriter_decodes_pending_entry :
    (WriterToHeadersWriter marshalName goodSink (TarReaderToHeaders 5)
        { script := scriptOf [rawHeader 48 (ascii "a") 1 0o644] (Except.error Error.EOF),
          calls := 0 }
        (cancelledFrom 0)).map (fun res => (res.1.calls, res.2.1.data, res.2.2)) =
      some (1, [], some Error.Canceled) := by
  decide

/-- C8, amended: when the sink of `WriterToHeadersWriter` drains
`TarReaderToHeaders` over an archive of `N` entries and cancellation is
requested after `m < N` entries have been drained, `Next` is called exactly
`m + 1` times: entry `m + 1` is decoded and then dropped unwritten, and none of
the entries `m + 2 .. N` is decoded. -/
theorem WriterToHeadersWriter_TarReader_cancelled
    (marshal : Header → Except Error GoString) (ser : Header → GoString) (wtr : Sink)
    (hs : List tar.Header) (r : tar.Reader) (ctx : context.Context) (m fuel : Nat)
    (cerr : Error) (hm : m < hs.length)
    (hreg : ∀ h ∈ hs.take m, h.Typeflag ∈ registeredTypeCodes)
    (hscript : ∀ i h, hs[i]? = some h → r.script (r.calls + i) = Except.ok h)
    (hbefore : ∀ i, i < m → ctx.done i = none) (hcancel : ctx.done m = some cerr)
    (hsink : wtr.room = none)
    (hser : ∀ h ∈ hs.take m, marshal (HeaderNew h).1 = Except.ok (ser (HeaderNew h).1))
    (hfuel : m < fuel) :
    (WriterToHeadersWriter marshal wtr (TarReaderToHeaders fuel) r ctx).map
        (fun res => (res.1.calls, res.2.1.data, res.2.2)) =
      some (r.calls + m + 1,
        wtr.data ++ outputOf ser ((hs.take m).map (fun h => (HeaderNew h).1)), some cerr) := by
  have hlen : (hs.take m).length = m := by simp; omega
  obtain ⟨x, hx⟩ : ∃ x, hs[m]? = some x := ⟨hs[m], List.getElem?_eq_getElem hm⟩
  obtain ⟨f, rfl⟩ : ∃ f, fuel = (f + 1) + (hs.take m).length :=
    ⟨fuel - m - 1, by rw [hlen]; omega⟩
  have hpairs := map_HeaderNew_of_registered (hs.take m) hreg
  obtain ⟨hpull, hgood⟩ := feed_loopBody marshal ser ctx ((hs.take m).map (fun h => (HeaderNew h).1))
    { enc := json.NewEncoder (bufio.NewWriter wtr), polls := 0, ret := none } wtr.data 0
    (GoodState_init wtr hsink)
    (fun i hi => by
      have hi2 : i < (hs.take m).length := by simpa using hi
      rw [Nat.zero_add]
      exact hbefore i (by omega))
    (fun hdr hh => by
      obtain ⟨h, hmem, rfl⟩ := List.mem_map.1 hh
      exact hser h hmem)
  rw [← hpairs] at hpull hgood
  have hrun := TarReaderToHeaders_through (loopBody marshal ctx) (hs.take m) r
    { enc := json.NewEncoder (bufio.NewWriter wtr), polls := 0, ret := none } (f + 1)
    (fun i h hi => hscript i h (by
      rw [List.getElem?_take] at hi
      split at hi
      · exact hi
      · exact absurd hi (by simp)))
    (fun pre h post heq => pullsThrough_split (loopBody marshal ctx) (pre.map HeaderNew)
      (HeaderNew h) (post.map HeaderNew) _ (by
        have := hpull
        rw [heq] at this
        simpa using this))
  unfold WriterToHeadersWriter
  simp only
  rw [hrun]
  have hpolls : (feed (loopBody marshal ctx) ((hs.take m).map HeaderNew)
      { enc := json.NewEncoder (bufio.NewWriter wtr), polls := 0, ret := none }).polls = m := by
    rw [hgood.2.2.1]
    simp only [List.length_map, hlen, Nat.zero_add]
  rw [TarReaderToHeaders_step_ok (loopBody marshal ctx) f _ _ x (by
    simp only [hlen]
    exact hscript m x hx)]
  rw [loopBody_cancelled marshal ctx _ _ _ cerr (by rw [hpolls]; exact hcancel)]
  simp only [Bool.false_eq_true, if_false]
  have hfin := afterLoop_returned
    ({ r with calls := r.calls + (hs.take m).length + 1 } : tar.Reader) _ _ _ cerr hgood
  simp only [afterLoop, Option.map_some', Option.some.injEq, Prod.mk.injEq] at hfin ⊢
  refine ⟨by simp [hlen], hfin.1, hfin.2⟩

/-- C8, amended, at a concrete archive: three entries, cancellation after one
has been drained; `Next` has been called twice. -/
theorem WriterToHeadersWriter_TarReader_cancelled_witness :
    (WriterToHeadersWriter marshalName goodSink (TarReaderToHeaders 5)
        { script := scriptOf [rawHeader 48 (ascii "a") 1 0o644, rawHeader 53 (ascii "d/") 0 0o755,
            rawHeader 48 (ascii "d/b") 2 0o600] (Except.error Error.EOF), calls := 0 }
        (cancelledFrom 1)).map (fun res => (res.1.calls, res.2.1.data, res.2.2)) =
      some (0 + 1 + 1,
        goodSink.data ++ outputOf (fun hdr => [34] ++ hdr.Name ++ [34])
          (([rawHeader 48 (ascii "a") 1 0o644, rawHeader 53 (ascii "d/") 0 0o755,
            rawHeader 48 (ascii "d/b") 2 0o600].take 1).map (fun h => (HeaderNew h).1)),
        some Error.Canceled) :=
  WriterToHeadersWriter_TarReader_cancelled marshalName (fun hdr => [34] ++ hdr.Name ++ [34])
    goodSink [rawHeader 48 (ascii "a") 1 0o644, rawHeader 53 (ascii "d/") 0 0o755,
      rawHeader 48 (ascii "d/b") 2 0o600]
    { script := scriptOf [rawHeader 48 (ascii "a") 1 0o644, rawHeader 53 (ascii "d/") 0 0o755,
        rawHeader 48 (ascii "d/b") 2 0o600] (Except.error Error.EOF), calls := 0 }
    (cancelledFrom 1) 1 5 Error.Canceled (by decide) (by decide)
    (by
      intro i h hi
      match i, hi with
      | 0, hi => simp at hi; subst hi; rfl
      | 1, hi => simp at hi; subst hi; rfl
      | 2, hi => simp at hi; subst hi; rfl
      | _ + 3, hi => simp at hi)
    (fun i hi => by
      have h0 : i = 0 := by omega
      subst h0
      rfl)
    rfl rfl (fun _ _ => rfl) (by decide)

/-- C9 as stated fails: on the empty sequence (`N = 0`) the loop body never
runs, the context is never looked at, and the function returns a nil error
although cancellation was requested from the start. -/
theorem WriterToHeadersWriter_empty_ignores_cancellation :
    (cancelledFrom 0).done 0 = some Error.Canceled ∧
    (WriterToHeadersWriter marshalName goodSink seqOfList [] (cancelledFrom 0)).map
      (fun res => res.2) = some (goodSink, none) := by
  decide

/-- C9, amended: when cancellation has been requested before the drain pulls
anything and the sequence has at least one element, the function returned by
`WriterToHeadersWriter` writes nothing to the sink and returns the context's
error; on the empty sequence it writes nothing and returns nil. -/
theorem WriterToHeadersWriter_cancelled_at_start
    (marshal : Header → Except Error GoString) (wtr : Sink)
    (ps : List (Header × Option Error)) (ctx : context.Context) (cerr : Error)
    (hcancel : ctx.done 0 = some cerr) :
    (ps ≠ [] →
      (WriterToHeadersWriter marshal wtr seqOfList ps ctx).map (fun res => res.2) =
        some (wtr, some cerr)) ∧
    (WriterToHeadersWriter marshal wtr seqOfList [] ctx).map (fun res => res.2) =
      some (wtr, none) := by
  constructor
  · intro hne
    cases ps with
    | nil => exact absurd rfl hne
    | cons p rest =>
      obtain ⟨hdr, e⟩ := p
      unfold WriterToHeadersWriter
      simp only
      rw [seqOfList, loopBody_cancelled marshal ctx hdr e _ cerr hcancel]
      simp [afterLoop, json.NewEncoder, bufio.NewWriter, bufio.Writer.Flush]
  · simp [WriterToHeadersWriter, seqOfList, afterLoop, json.NewEncoder, bufio.NewWriter,
      bufio.Writer.Flush]

/-- C9, amended, at a concrete sequence of one record. -/
theorem WriterToHeadersWriter_cancelled_at_start_witness :
    (WriterToHeadersWriter marshalName goodSink seqOfList
        [((HeaderNew (rawHeader 48 (ascii "a") 1 0o644)).1, none)] (cancelledFrom 0)).map
      (fun res => res.2) = some (goodSink, some Error.Canceled) :=
  (WriterToHeadersWriter_cancelled_at_start marshalName goodSink
    [((HeaderNew (rawHeader 48 (ascii "a") 1 0o644)).1, none)] (cancelledFrom 0)
    Error.Canceled rfl).1 (by simp)

/-! ### Extended records -/

/-- C10 as stated fails: a raw header that carries no extended records (its
`PAXRecords` is the nil map) gives a record whose `PAXRecords` is the nil map
too, not an empty one. -/
theorem HeaderNew_PAXRecords_nil_counterexample :
    tar.TypeReg ∈ registeredTypeCodes ∧
    (rawHeader tar.TypeReg (ascii "a") 1 0o644).PAXRecords = none ∧
    (HeaderNew (rawHeader tar.TypeReg (ascii "a") 1 0o644)).1.PAXRecords = none ∧
    (HeaderNew (rawHeader tar.TypeReg (ascii "a") 1 0o644)).1.PAXRecords ≠ some [] := by
  decide

/-- C10, amended: for a registered type code the record's `PAXRecords` is the
raw header's `PAXRecords`, unchanged: nil exactly when the raw header's is
nil, and the same mapping otherwise. -/
theorem HeaderNew_PAXRecords (h : tar.Header) (hreg : h.Typeflag ∈ registeredTypeCodes) :
    (HeaderNew h).1.PAXRecords = h.PAXRecords ∧
    ((HeaderNew h).1.PAXRecords = none ↔ h.PAXRecords = none) := by
  have hp : (HeaderNew h).1.PAXRecords = h.PAXRecords := by
    simp [HeaderNew, TypeFlagFromByte_of_registered _ hreg]
  exact ⟨hp, by rw [hp]⟩

/-- C10, amended, at a raw header that carries one extended record. -/
theorem HeaderNew_PAXRecords_witness :
    (HeaderNew { rawHeader tar.TypeReg (ascii "a") 1 0o644 with
        PAXRecords := some [(ascii "path", ascii "a")] }).1.PAXRecords =
      some [(ascii "path", ascii "a")] :=
  (HeaderNew_PAXRecords { rawHeader tar.TypeReg (ascii "a") 1 0o644 with
    PAXRecords := some [(ascii "path", ascii "a")] } (by decide)).1

/-! ### Empty names, hidden entries and copied fields -/

theorem HeaderNew_Hidden (t : tar.Header) (h : t.Typeflag ∈ registeredTypeCodes) :
    (HeaderNew t).1.Hidden = HasPrefix (HeaderNew t).1.Basename (ascii ".") := by
  simp [HeaderNew, TypeFlagFromByte_of_registered _ h]

theorem headerFileInfo_Name_of_empty (t : tar.Header) (h : t.Name = []) :
    tar.headerFileInfo.Name t = ascii "." := by
  unfold tar.headerFileInfo.Name
  rw [h]
  split <;> rfl

/-- C11 as stated fails: a regular-file entry whose `Name` is the empty string
gets Basename `"."`, not the empty string, and Hidden true, not false. -/
theorem HeaderNew_empty_name_counterexample :
    tar.TypeReg ∈ registeredTypeCodes ∧
    (rawHeader tar.TypeReg (ascii "") 0 0o644).Name = [] ∧
    (HeaderNew (rawHeader tar.TypeReg (ascii "") 0 0o644)).1.Basename = ascii "." ∧
    (HeaderNew (rawHeader tar.TypeReg (ascii "") 0 0o644)).1.Basename ≠ [] ∧
    (HeaderNew (rawHeader tar.TypeReg (ascii "") 0 0o644)).1.Hidden = true := by
  decide

/-- C11, amended: for a registered type code and an empty `Name`, the record
has Basename `"."` (what `path.Base` gives for the empty path) and, that name
starting with a dot, Hidden true. -/
theorem HeaderNew_empty_name (h : tar.Header) (hreg : h.Typeflag ∈ registeredTypeCodes)
    (hname : h.Name = []) :
    (HeaderNew h).1.Basename = ascii "." ∧ (HeaderNew h).1.Hidden = true := by
  have hb : (HeaderNew h).1.Basename = ascii "." := by
    rw [HeaderNew_Basename h hreg, headerFileInfo_Name_of_empty h hname]
  refine ⟨hb, ?_⟩
  rw [HeaderNew_Hidden h hreg, hb]
  rfl

/-- C11, amended, at a directory entry with an empty name. -/
theorem HeaderNew_empty_name_witness :
    (HeaderNew (rawHeader tar.TypeDir (ascii "") 0 0o755)).1.Basename = ascii "." ∧
    (HeaderNew (rawHeader tar.TypeDir (ascii "") 0 0o755)).1.Hidden = true :=
  HeaderNew_empty_name (rawHeader tar.TypeDir (ascii "") 0 0o755) (by decide) rfl

/-! ### The format registry -/

theorem HeaderNew_Format (t : tar.Header) (h : t.Typeflag ∈ registeredTypeCodes) :
    (HeaderNew t).1.Format = FormatNew t.Format := by
  simp [HeaderNew, TypeFlagFromByte_of_registered _ h]

theorem lookup_int_eq_none_iff_not_mem {β : Type} (l : List (Int × β)) (b : Int) :
    l.lookup b = none ↔ b ∉ l.map (fun p => p.1) := by
  induction l with
  | nil => simp
  | cons x t ih =>
    obtain ⟨k, v⟩ := x
    by_cases hk : b = k
    · subst hk
      simp [List.lookup]
    · have hk2 : (b == k) = false := by simpa using hk
      simp [List.lookup, hk2, ih, hk]

/-- C12 as stated fails: the raw code `tar.FormatUnknown` is a key of
`FormatMap`, and `FormatNew` maps it to `FormatUnknown`; so does `HeaderNew`. -/
theorem FormatNew_unknown_key_counterexample :
    tar.FormatUnknown ∈ formatKeys ∧
    FormatNew tar.FormatUnknown = FormatUnknown ∧
    (HeaderNew { rawHeader tar.TypeReg (ascii "a") 1 0o644 with
      Format := tar.FormatUnknown }).1.Format = FormatUnknown := by
  decide

/-- C12, amended: for every key of `FormatMap` other than `tar.FormatUnknown`
(that is `FormatUSTAR`, `FormatPAX`, `FormatGNU`), `FormatNew` returns a
`Format` different from `FormatUnknown`, the one of the same value, and so does
the `Format` field of the record `HeaderNew` builds; the key
`tar.FormatUnknown` is mapped to `FormatUnknown`. -/
theorem FormatNew_of_key (f : Int) (hkey : f ∈ formatKeys) :
    (f ≠ tar.FormatUnknown →
      FormatNew f ≠ FormatUnknown ∧ FormatNew f = f ∧
      ∀ h : tar.Header, h.Typeflag ∈ registeredTypeCodes → h.Format = f →
        (HeaderNew h).1.Format ≠ FormatUnknown) ∧
    (f = tar.FormatUnknown → FormatNew f = FormatUnknown) ∧
    formatKeys = [tar.FormatUnknown, tar.FormatUSTAR, tar.FormatPAX, tar.FormatGNU] := by
  have hcases : f = 0 ∨ f = 2 ∨ f = 4 ∨ f = 8 := by
    simpa [formatKeys, FormatMap, tar.FormatUnknown, tar.FormatUSTAR, tar.FormatPAX,
      tar.FormatGNU] using hkey
  refine ⟨?_, ?_, rfl⟩
  · intro hne
    have h3 : f = 2 ∨ f = 4 ∨ f = 8 := by
      rcases hcases with h | h
      · exact absurd h hne
      · exact h
    have hnew : FormatNew f ≠ FormatUnknown ∧ FormatNew f = f := by
      rcases h3 with h | h | h <;> subst h <;> decide
    refine ⟨hnew.1, hnew.2, ?_⟩
    intro h hreg hf
    rw [HeaderNew_Format h hreg, hf]
    exact hnew.1
  · intro h
    subst h
    rfl

/-- C12, amended, at the key `tar.FormatPAX`. -/
theorem FormatNew_of_key_witness :
    FormatNew tar.FormatPAX ≠ FormatUnknown ∧ FormatNew tar.FormatPAX = tar.FormatPAX :=
  ⟨((FormatNew_of_key tar.FormatPAX (by decide)).1 (by decide)).1,
   ((FormatNew_of_key tar.FormatPAX (by decide)).1 (by decide)).2.1⟩

/-- C13: `FormatNew` is a total function without error result; on every raw
code that is not a key of `FormatMap` it returns `FormatUnknown`, and the
error returned by `HeaderNew` is the same whatever the raw format code. -/
theorem FormatNew_of_not_key (f : Int) (hkey : f ∉ formatKeys) :
    FormatNew f = FormatUnknown ∧
    (∀ (h : tar.Header) (g : Int),
      (HeaderNew { h with Format := g }).2 = (HeaderNew h).2) ∧
    (∀ h : tar.Header, h.Typeflag ∈ registeredTypeCodes → h.Format = f →
      HeaderNew h = ((HeaderNew h).1, none) ∧ (HeaderNew h).1.Format = FormatUnknown) := by
  have hl : FormatMap.lookup f = none := (lookup_int_eq_none_iff_not_mem FormatMap f).2 hkey
  have hnew : FormatNew f = FormatUnknown := by simp [FormatNew, hl]
  refine ⟨hnew, ?_, ?_⟩
  · intro h g
    unfold HeaderNew
    simp only
    split <;> rfl
  · intro h hreg hf
    have he := HeaderNew_err_of_registered h hreg
    refine ⟨?_, ?_⟩
    · rw [← he]
    · rw [HeaderNew_Format h hreg, hf, hnew]

/-- C13 at the raw code `FormatUSTAR | FormatPAX` (the two bits being
distinct, their sum, 6), which is no key. -/
theorem FormatNew_of_not_key_witness :
    FormatNew (tar.FormatUSTAR + tar.FormatPAX) = FormatUnknown :=
  (FormatNew_of_not_key (tar.FormatUSTAR + tar.FormatPAX) (by decide)).1

/-! ### The type registry -/

/-- C15: the type registry is one-to-one. `TypeFlagFromByte` maps each of the
13 registered raw codes to the `TypeFlag` of the same value, so to 13 pairwise
distinct values; `TypeFlag.String` gives each of them a fixed string, not
empty, and the 13 strings are pairwise distinct. -/
theorem TypeFlag_registry_one_to_one :
    registeredTypeCodes.length = 13 ∧ registeredTypeCodes.Nodup ∧
    (∀ b ∈ registeredTypeCodes, TypeFlagFromByte b = (b, none)) ∧
    (registeredTypeCodes.map (fun b => (TypeFlagFromByte b).1)).Nodup ∧
    (∀ b ∈ registeredTypeCodes, TypeFlag.String (TypeFlagFromByte b).1 ≠ []) ∧
    (registeredTypeCodes.map (fun b => TypeFlag.String (TypeFlagFromByte b).1)).Nodup ∧
    registeredTypeCodes.map (fun b => TypeFlag.String (TypeFlagFromByte b).1) =
      [ascii "Regular File", ascii "Hard Link", ascii "Symbolic Link",
       ascii "Character Device", ascii "Block Device", ascii "Directory", ascii "FIFO",
       ascii "(reserved)", ascii "Non-global Key/Val records(PAX)",
       ascii "Global Key/Val records(PAX)", ascii "Sparse File", ascii "Long Path",
       ascii "Long Link Name"] := by
  refine ⟨rfl, by decide, TypeFlagFromByte_of_registered, by decide, by decide, by decide,
    by decide⟩

/-! ### The hidden flag -/

theorem HasPrefix_dot_iff (s : GoString) :
    HasPrefix s (ascii ".") = true ↔ ∃ rest, s = 46 :: rest := by
  cases s with
  | nil => simp [HasPrefix, ascii]
  | cons c t =>
    have : HasPrefix (c :: t) (ascii ".") = (46 == c) := by
      show List.isPrefixOf [46] (c :: t) = (46 == c)
      simp [List.isPrefixOf]
    rw [this]
    constructor
    · intro h
      have hc : 46 = c := by simpa using h
      exact ⟨t, by rw [hc]⟩
    · rintro ⟨rest, h⟩
      have hc : c = 46 := (List.cons.inj h).1
      rw [hc]
      rfl

/-- C16: for a registered type code, `Hidden` is true exactly when `Basename`
starts with the character `'.'` (byte 46). -/
theorem HeaderNew_Hidden_iff (h : tar.Header) (hreg : h.Typeflag ∈ registeredTypeCodes) :
    (HeaderNew h).1.Hidden = true ↔ ∃ rest, (HeaderNew h).1.Basename = 46 :: rest := by
  rw [HeaderNew_Hidden h hreg]
  exact HasPrefix_dot_iff _

/-- C16 at two regular files: `"sub/.hidden"` is hidden, `"sub/shown"` is
not. -/
theorem HeaderNew_Hidden_iff_witness :
    ((HeaderNew (rawHeader tar.TypeReg (ascii "sub/.hidden") 42 0o644)).1.Hidden = true ↔
      ∃ rest, (HeaderNew (rawHeader tar.TypeReg (ascii "sub/.hidden") 42 0o644)).1.Basename =
        46 :: rest) ∧
    (HeaderNew (rawHeader tar.TypeReg (ascii "sub/.hidden") 42 0o644)).1.Hidden = true ∧
    (HeaderNew (rawHeader tar.TypeReg (ascii "sub/shown") 42 0o644)).1.Hidden = false :=
  ⟨HeaderNew_Hidden_iff (rawHeader tar.TypeReg (ascii "sub/.hidden") 42 0o644) (by decide),
   by decide, by decide⟩

/-! ### Copied fields -/

/-- C20: for a registered type code, `HeaderNew` copies `Name`, `Linkname`,
`Size`, `Mode`, `Uid`, `Gid`, `Uname`, `Gname`, `ModTime`, `AccessTime`,
`ChangeTime`, `Devmajor` and `Devminor` unchanged, sets `TypeFlag` to the raw
type code, `TypeString` to its `String()`, `FileModeString` to the rendering
of the record's `FileMode`, and `Format` to `FormatNew` of the raw format
code. -/
theorem HeaderNew_copies_fields (h : tar.Header) (hreg : h.Typeflag ∈ registeredTypeCodes) :
    (HeaderNew h).1.Name = h.Name ∧ (HeaderNew h).1.Linkname = h.Linkname ∧
    (HeaderNew h).1.Size = h.Size ∧ (HeaderNew h).1.Mode = h.Mode ∧
    (HeaderNew h).1.Uid = h.Uid ∧ (HeaderNew h).1.Gid = h.Gid ∧
    (HeaderNew h).1.Uname = h.Uname ∧ (HeaderNew h).1.Gname = h.Gname ∧
    (HeaderNew h).1.ModTime = h.ModTime ∧ (HeaderNew h).1.AccessTime = h.AccessTime ∧
    (HeaderNew h).1.ChangeTime = h.ChangeTime ∧
    (HeaderNew h).1.Devmajor = h.Devmajor ∧ (HeaderNew h).1.Devminor = h.Devminor ∧
    (HeaderNew h).1.TypeFlag = h.Typeflag ∧
    (HeaderNew h).1.TypeString = TypeFlag.String h.Typeflag ∧
    (HeaderNew h).1.FileModeString = fs.FileMode.String (HeaderNew h).1.FileMode ∧
    (HeaderNew h).1.Format = FormatNew h.Format := by
  simp [HeaderNew, TypeFlagFromByte_of_registered _ hreg]

/-- C20 at the regular file `"sub/.hidden"` of size 42 and mode 0644: the
record has entry type RegularFile and size 42. -/
theorem HeaderNew_copies_fields_witness :
    (HeaderNew (rawHeader tar.TypeReg (ascii "sub/.hidden") 42 0o644)).1.Size = 42 ∧
    (HeaderNew (rawHeader tar.TypeReg (ascii "sub/.hidden") 42 0o644)).1.TypeFlag =
      TypeFlagReg ∧
    (HeaderNew (rawHeader tar.TypeReg (ascii "sub/.hidden") 42 0o644)).1.TypeString =
      ascii "Regular File" ∧
    (HeaderNew (rawHeader tar.TypeReg (ascii "sub/.hidden") 42 0o644)).1.FileModeString =
      ascii "-rw-r--r--" :=
  ⟨(HeaderNew_copies_fields (rawHeader tar.TypeReg (ascii "sub/.hidden") 42 0o644)
      (by decide)).2.2.1,
   (HeaderNew_copies_fields (rawHeader tar.TypeReg (ascii "sub/.hidden") 42 0o644)
      (by decide)).2.2.2.2.2.2.2.2.2.2.2.2.2.1,
   by decide, by decide⟩

/-! ### File mode bits and the entry type -/

theorem headerFileInfo_Mode_parts (h : tar.Header) :
    tar.headerFileInfo.Mode h =
      tar.headerFileInfo.typeSwitch h.Typeflag
        (tar.headerFileInfo.modeSwitch (tar.headerFileInfo.fileTypeBits h)
          (tar.headerFileInfo.permBits h)) := rfl

theorem and_two_pow_ne_zero_iff (x k : Nat) : x &&& 2 ^ k ≠ 0 ↔ x.testBit k = true := by
  constructor
  · intro h
    by_contra hx
    apply h
    apply Nat.eq_of_testBit_eq
    intro i
    rw [Nat.testBit_and, Nat.testBit_two_pow, Nat.zero_testBit]
    by_cases hki : k = i
    · subst hki
      simp [hx]
    · simp [hki]
  · intro hx h0
    have := congrArg (fun y => Nat.testBit y k) h0
    simp [Nat.testBit_and, Nat.testBit_two_pow_self, hx] at this

/-- The permission, setuid, setgid and sticky bits are below bit 24. -/
theorem permBits_testBit (h : tar.Header) (k : Nat) (hk : 24 ≤ k) :
    (tar.headerFileInfo.permBits h).testBit k = false := by
  have hperm : ∀ x : Nat, (fs.FileMode.Perm x).testBit k = false := by
    intro x
    have hlt : (0o777 : Nat) < 2 ^ k :=
      Nat.lt_of_lt_of_le (by decide : (0o777 : Nat) < 2 ^ 24) (Nat.pow_le_pow_right (by decide) hk)
    show (x &&& 0o777).testBit k = false
    rw [Nat.testBit_and, Nat.testBit_lt_two_pow hlt, Bool.and_false]
  have h23 : (fs.ModeSetuid : Nat).testBit k = false := by
    show (2 ^ 23 : Nat).testBit k = false
    exact Nat.testBit_two_pow_of_ne (by omega)
  have h22 : (fs.ModeSetgid : Nat).testBit k = false := by
    show (2 ^ 22 : Nat).testBit k = false
    exact Nat.testBit_two_pow_of_ne (by omega)
  have h20 : (fs.ModeSticky : Nat).testBit k = false := by
    show (2 ^ 20 : Nat).testBit k = false
    exact Nat.testBit_two_pow_of_ne (by omega)
  unfold tar.headerFileInfo.permBits
  simp only
  split <;> split <;> split <;>
    simp only [Nat.testBit_or, hperm, h23, h22, h20, Bool.or_false]

/-- What the first `switch` of `headerFileInfo.Mode` does to the directory,
symlink, device and named-pipe bits. -/
theorem modeSwitch_testBit (m mode : Nat) :
    ((tar.headerFileInfo.modeSwitch m mode).testBit 31 =
      (mode.testBit 31 || decide (m = tar.c_ISDIR))) ∧
    ((tar.headerFileInfo.modeSwitch m mode).testBit 27 =
      (mode.testBit 27 || decide (m = tar.c_ISLNK))) ∧
    ((tar.headerFileInfo.modeSwitch m mode).testBit 26 =
      (mode.testBit 26 || decide (m = tar.c_ISBLK ∨ m = tar.c_ISCHR))) ∧
    ((tar.headerFileInfo.modeSwitch m mode).testBit 25 =
      (mode.testBit 25 || decide (m = tar.c_ISFIFO))) := by
  unfold tar.headerFileInfo.modeSwitch
  split_ifs with h1 h2 h3 h4 h5 h6
  · subst h1
    simp +decide [Nat.testBit_or, fs.ModeDir, tar.c_ISDIR, tar.c_ISLNK, tar.c_ISBLK,
      tar.c_ISCHR, tar.c_ISFIFO]
  · subst h2
    simp +decide [Nat.testBit_or, fs.ModeNamedPipe, tar.c_ISDIR, tar.c_ISLNK, tar.c_ISBLK,
      tar.c_ISCHR, tar.c_ISFIFO]
  · subst h3
    simp +decide [Nat.testBit_or, fs.ModeSymlink, tar.c_ISDIR, tar.c_ISLNK, tar.c_ISBLK,
      tar.c_ISCHR, tar.c_ISFIFO]
  · subst h4
    simp +decide [Nat.testBit_or, fs.ModeDevice, tar.c_ISDIR, tar.c_ISLNK, tar.c_ISBLK,
      tar.c_ISCHR, tar.c_ISFIFO]
  · subst h5
    have e1 : Nat.testBit 67108864 31 = false := by decide
    have e2 : Nat.testBit 2097152 31 = false := by decide
    have e3 : Nat.testBit 67108864 27 = false := by decide
    have e4 : Nat.testBit 2097152 27 = false := by decide
    have e5 : Nat.testBit 67108864 25 = false := by decide
    have e6 : Nat.testBit 2097152 25 = false := by decide
    simp +decide [Nat.testBit_or, fs.ModeDevice, fs.ModeCharDevice, tar.c_ISDIR, tar.c_ISLNK,
      tar.c_ISBLK, tar.c_ISCHR, tar.c_ISFIFO, e1, e2, e3, e4, e5, e6]
  · subst h6
    simp +decide [Nat.testBit_or, fs.ModeSocket, tar.c_ISDIR, tar.c_ISLNK, tar.c_ISBLK,
      tar.c_ISCHR, tar.c_ISFIFO]
  · simp [h1, h2, h3, h4, h5]

/-- What the second `switch` of `headerFileInfo.Mode` does to the directory,
symlink, device and named-pipe bits. -/
theorem typeSwitch_testBit (t mode : Nat) :
    ((tar.headerFileInfo.typeSwitch t mode).testBit 31 =
      (mode.testBit 31 || decide (t = tar.TypeDir))) ∧
    ((tar.headerFileInfo.typeSwitch t mode).testBit 27 =
      (mode.testBit 27 || decide (t = tar.TypeSymlink))) ∧
    ((tar.headerFileInfo.typeSwitch t mode).testBit 26 =
      (mode.testBit 26 || decide (t = tar.TypeChar ∨ t = tar.TypeBlock))) ∧
    ((tar.headerFileInfo.typeSwitch t mode).testBit 25 =
      (mode.testBit 25 || decide (t = tar.TypeFifo))) := by
  unfold tar.headerFileInfo.typeSwitch
  split_ifs with h1 h2 h3 h4 h5
  · subst h1
    simp +decide [Nat.testBit_or, fs.ModeSymlink, tar.TypeDir, tar.TypeSymlink, tar.TypeChar,
      tar.TypeBlock, tar.TypeFifo]
  · subst h2
    have e1 : Nat.testBit 67108864 31 = false := by decide
    have e2 : Nat.testBit 2097152 31 = false := by decide
    have e3 : Nat.testBit 67108864 27 = false := by decide
    have e4 : Nat.testBit 2097152 27 = false := by decide
    have e5 : Nat.testBit 67108864 25 = false := by decide
    have e6 : Nat.testBit 2097152 25 = false := by decide
    simp +decide [Nat.testBit_or, fs.ModeDevice, fs.ModeCharDevice, tar.TypeDir,
      tar.TypeSymlink, tar.TypeChar, tar.TypeBlock, tar.TypeFifo, e1, e2, e3, e4, e5, e6]
  · subst h3
    simp +decide [Nat.testBit_or, fs.ModeDevice, tar.TypeDir, tar.TypeSymlink, tar.TypeChar,
      tar.TypeBlock, tar.TypeFifo]
  · subst h4
    simp +decide [Nat.testBit_or, fs.ModeDir, tar.TypeDir, tar.TypeSymlink, tar.TypeChar,
      tar.TypeBlock, tar.TypeFifo]
  · subst h5
    simp +decide [Nat.testBit_or, fs.ModeNamedPipe, tar.TypeDir, tar.TypeSymlink, tar.TypeChar,
      tar.TypeBlock, tar.TypeFifo]
  · simp [h1, h2, h3, h4, h5]

/-- The four type bits of `headerFileInfo.Mode`, each set by the type code or
by the file-type bits of the raw mode. -/
theorem headerFileInfo_Mode_testBit (h : tar.Header) :
    ((tar.headerFileInfo.Mode h).testBit 31 = true ↔
      h.Typeflag = tar.TypeDir ∨ tar.headerFileInfo.fileTypeBits h = tar.c_ISDIR) ∧
    ((tar.headerFileInfo.Mode h).testBit 27 = true ↔
      h.Typeflag = tar.TypeSymlink ∨ tar.headerFileInfo.fileTypeBits h = tar.c_ISLNK) ∧
    ((tar.headerFileInfo.Mode h).testBit 26 = true ↔
      (h.Typeflag = tar.TypeChar ∨ h.Typeflag = tar.TypeBlock) ∨
        (tar.headerFileInfo.fileTypeBits h = tar.c_ISBLK ∨
          tar.headerFileInfo.fileTypeBits h = tar.c_ISCHR)) ∧
    ((tar.headerFileInfo.Mode h).testBit 25 = true ↔
      h.Typeflag = tar.TypeFifo ∨ tar.headerFileInfo.fileTypeBits h = tar.c_ISFIFO) := by
  obtain ⟨t31, t27, t26, t25⟩ := typeSwitch_testBit h.Typeflag
    (tar.headerFileInfo.modeSwitch (tar.headerFileInfo.fileTypeBits h)
      (tar.headerFileInfo.permBits h))
  obtain ⟨m31, m27, m26, m25⟩ := modeSwitch_testBit (tar.headerFileInfo.fileTypeBits h)
    (tar.headerFileInfo.permBits h)
  rw [headerFileInfo_Mode_parts]
  rw [t31, t27, t26, t25, m31, m27, m26, m25]
  rw [permBits_testBit h 31 (by decide), permBits_testBit h 27 (by decide),
    permBits_testBit h 26 (by decide), permBits_testBit h 25 (by decide)]
  simp only [Bool.false_or, Bool.or_eq_true, decide_eq_true_eq]
  refine ⟨or_comm, or_comm, or_comm, or_comm⟩

/-- A raw mode between 0 and 07777 has no file-type bits. -/
theorem fileTypeBits_of_small (h : tar.Header) (h0 : 0 ≤ h.Mode) (h1 : h.Mode < 0o10000) :
    tar.headerFileInfo.fileTypeBits h = 0 := by
  unfold tar.headerFileInfo.fileTypeBits tar.bitClear32
  have hlt : (h.Mode % 2 ^ 32).toNat < 2 ^ 12 := by
    have : h.Mode % 2 ^ 32 = h.Mode := Int.emod_eq_of_lt h0 (by omega)
    rw [this]
    omega
  apply Nat.eq_of_testBit_eq
  intro i
  rw [Nat.testBit_and, Nat.zero_testBit]
  by_cases hi : i < 12
  · have : (0xFFFFFFFF ^^^ 0o7777 : Nat).testBit i = false := by
      interval_cases i <;> decide
    rw [this, Bool.and_false]
  · have hx : (h.Mode % 2 ^ 32).toNat < 2 ^ i :=
      Nat.lt_of_lt_of_le hlt (Nat.pow_le_pow_right (by decide) (by omega))
    rw [Nat.testBit_lt_two_pow hx, Bool.false_and]

theorem HeaderNew_TypeFlag (t : tar.Header) (h : t.Typeflag ∈ registeredTypeCodes) :
    (HeaderNew t).1.TypeFlag = t.Typeflag := by
  simp [HeaderNew, TypeFlagFromByte_of_registered _ h]

/-- C14 as stated fails: a regular-file entry whose raw `Mode` carries the
Unix directory bits (040755) gets a `FileMode` with the directory bit set,
rendered `"drwxr-xr-x"`, though its entry type is not Directory. -/
theorem FileMode_directory_bit_counterexample :
    tar.TypeReg ∈ registeredTypeCodes ∧
    (HeaderNew (rawHeader tar.TypeReg (ascii "a") 0 0o40755)).1.TypeFlag = TypeFlagReg ∧
    (HeaderNew (rawHeader tar.TypeReg (ascii "a") 0 0o40755)).1.TypeFlag ≠ TypeFlagDir ∧
    (HeaderNew (rawHeader tar.TypeReg (ascii "a") 0 0o40755)).1.FileMode &&& fs.ModeDir ≠ 0 ∧
    (HeaderNew (rawHeader tar.TypeReg (ascii "a") 0 0o40755)).1.FileModeString =
      ascii "drwxr-xr-x" := by
  decide

/-- C14, amended: for a registered type code and every raw `Mode`, each type
bit of the record's `FileMode` is set exactly when the entry type calls for it
or the file-type bits of the raw `Mode` (`Mode &^ 07777` as a uint32) are the
Unix constant for it: the directory bit for Directory or `c_ISDIR`, the
symlink bit for SymbolicLink or `c_ISLNK`, the named-pipe bit for Fifo or
`c_ISFIFO`, the device bit for CharDevice, BlockDevice, `c_ISCHR` or
`c_ISBLK`. When the raw `Mode` has no file-type bits (it lies between 0 and
07777) each bit is set exactly when the entry type calls for it. -/
theorem HeaderNew_FileMode_type_bits (h : tar.Header)
    (hreg : h.Typeflag ∈ registeredTypeCodes) :
    ((HeaderNew h).1.FileMode &&& fs.ModeDir ≠ 0 ↔
      (HeaderNew h).1.TypeFlag = TypeFlagDir ∨
        tar.headerFileInfo.fileTypeBits h = tar.c_ISDIR) ∧
    ((HeaderNew h).1.FileMode &&& fs.ModeSymlink ≠ 0 ↔
      (HeaderNew h).1.TypeFlag = TypeFlagSymlink ∨
        tar.headerFileInfo.fileTypeBits h = tar.c_ISLNK) ∧
    ((HeaderNew h).1.FileMode &&& fs.ModeNamedPipe ≠ 0 ↔
      (HeaderNew h).1.TypeFlag = TypeFlagFifo ∨
        tar.headerFileInfo.fileTypeBits h = tar.c_ISFIFO) ∧
    ((HeaderNew h).1.FileMode &&& fs.ModeDevice ≠ 0 ↔
      ((HeaderNew h).1.TypeFlag = TypeFlagChar ∨ (HeaderNew h).1.TypeFlag = TypeFlagBlock) ∨
        (tar.headerFileInfo.fileTypeBits h = tar.c_ISBLK ∨
          tar.headerFileInfo.fileTypeBits h = tar.c_ISCHR)) ∧
    (0 ≤ h.Mode → h.Mode < 0o10000 →
      ((HeaderNew h).1.FileMode &&& fs.ModeDir ≠ 0 ↔
        (HeaderNew h).1.TypeFlag = TypeFlagDir) ∧
      ((HeaderNew h).1.FileMode &&& fs.ModeSymlink ≠ 0 ↔
        (HeaderNew h).1.TypeFlag = TypeFlagSymlink) ∧
      ((HeaderNew h).1.FileMode &&& fs.ModeNamedPipe ≠ 0 ↔
        (HeaderNew h).1.TypeFlag = TypeFlagFifo) ∧
      ((HeaderNew h).1.FileMode &&& fs.ModeDevice ≠ 0 ↔
        (HeaderNew h).1.TypeFlag = TypeFlagChar ∨
          (HeaderNew h).1.TypeFlag = TypeFlagBlock)) := by
  obtain ⟨b31, b27, b26, b25⟩ := headerFileInfo_Mode_testBit h
  have hmode := HeaderNew_FileMode h hreg
  have htype := HeaderNew_TypeFlag h hreg
  have d31 : (HeaderNew h).1.FileMode &&& fs.ModeDir ≠ 0 ↔
      (HeaderNew h).1.TypeFlag = TypeFlagDir ∨
        tar.headerFileInfo.fileTypeBits h = tar.c_ISDIR := by
    rw [hmode, htype]
    exact (and_two_pow_ne_zero_iff _ 31).trans b31
  have d27 : (HeaderNew h).1.FileMode &&& fs.ModeSymlink ≠ 0 ↔
      (HeaderNew h).1.TypeFlag = TypeFlagSymlink ∨
        tar.headerFileInfo.fileTypeBits h = tar.c_ISLNK := by
    rw [hmode, htype]
    exact (and_two_pow_ne_zero_iff _ 27).trans b27
  have d25 : (HeaderNew h).1.FileMode &&& fs.ModeNamedPipe ≠ 0 ↔
      (HeaderNew h).1.TypeFlag = TypeFlagFifo ∨
        tar.headerFileInfo.fileTypeBits h = tar.c_ISFIFO := by
    rw [hmode, htype]
    exact (and_two_pow_ne_zero_iff _ 25).trans b25
  have d26 : (HeaderNew h).1.FileMode &&& fs.ModeDevice ≠ 0 ↔
      ((HeaderNew h).1.TypeFlag = TypeFlagChar ∨ (HeaderNew h).1.TypeFlag = TypeFlagBlock) ∨
        (tar.headerFileInfo.fileTypeBits h = tar.c_ISBLK ∨
          tar.headerFileInfo.fileTypeBits h = tar.c_ISCHR) := by
    rw [hmode, htype]
    exact (and_two_pow_ne_zero_iff _ 26).trans b26
  refine ⟨d31, d27, d25, d26, ?_⟩
  intro h0 h1
  have hz := fileTypeBits_of_small h h0 h1
  rw [hz] at d31 d27 d25 d26
  have n1 : ¬ (0 = tar.c_ISDIR) := by decide
  have n2 : ¬ (0 = tar.c_ISLNK) := by decide
  have n3 : ¬ (0 = tar.c_ISFIFO) := by decide
  have n4 : ¬ (0 = tar.c_ISBLK ∨ 0 = tar.c_ISCHR) := by decide
  exact ⟨d31.trans (or_iff_left n1), d27.trans (or_iff_left n2), d25.trans (or_iff_left n3),
    d26.trans (or_iff_left n4)⟩

/-- C14, amended, at a directory entry of raw mode 0755: its directory bit is
set, its three other type bits are not. -/
theorem HeaderNew_FileMode_type_bits_witness :
    ((HeaderNew (rawHeader tar.TypeDir (ascii "d/") 0 0o755)).1.FileMode &&& fs.ModeDir ≠ 0 ↔
      (HeaderNew (rawHeader tar.TypeDir (ascii "d/") 0 0o755)).1.TypeFlag = TypeFlagDir) ∧
    (HeaderNew (rawHeader tar.TypeDir (ascii "d/") 0 0o755)).1.TypeFlag = TypeFlagDir ∧
    (HeaderNew (rawHeader tar.TypeDir (ascii "d/") 0 0o755)).1.FileMode =
      fs.ModeDir ||| 0o755 :=
  ⟨((HeaderNew_FileMode_type_bits (rawHeader tar.TypeDir (ascii "d/") 0 0o755)
      (by decide)).2.2.2.2 (by decide) (by decide)).1, by decide, by decide⟩

/-! ### Early termination -/

/-- C17: when the consumer pulls through the first `i - 1` elements and stops
on element `i` (the pair yielded for the result of call `i` of `Next`, a
header or a decode error), the run returns after exactly `i` calls of `Next`,
`i` pairs having been yielded: stopping triggers no further decode call. -/
theorem TarReaderToHeaders_stops_with_consumer (hs : List tar.Header)
    (last : Except Error tar.Header) (r : tar.Reader) (fuel : Nat)
    (answer : List (Header × Option Error) → Bool)
    (hscript : ∀ i h, hs[i]? = some h → r.script (r.calls + i) = Except.ok h)
    (hlast : r.script (r.calls + hs.length) = last)
    (hne : last ≠ Except.error Error.EOF)
    (hpull : ∀ j, j < hs.length → answer ((hs.take (j + 1)).map HeaderNew) = true)
    (hstop : answer (hs.map HeaderNew ++ [yieldedFor last]) = false)
    (hfuel : hs.length < fuel) :
    TarReaderToHeaders fuel (recorder answer) r [] =
        some ({ r with calls := r.calls + (hs.length + 1) },
          hs.map HeaderNew ++ [yieldedFor last]) ∧
      (hs.map HeaderNew ++ [yieldedFor last]).length = hs.length + 1 := by
  refine ⟨?_, by simp⟩
  obtain ⟨f, rfl⟩ : ∃ f, fuel = (f + 1) + hs.length := ⟨fuel - hs.length - 1, by omega⟩
  rw [TarReaderToHeaders_through (recorder answer) hs r [] (f + 1) hscript
    (recorder_prefix_pulls answer hs hpull), feed_recorder]
  cases last with
  | error e =>
    have hne' : e ≠ Error.EOF := fun h => hne (by rw [h])
    rw [TarReaderToHeaders_step_error _ f _ _ e hlast, if_neg hne']
    simp [recorder, yieldedFor, Nat.add_assoc]
  | ok hdr =>
    rw [TarReaderToHeaders_step_ok _ f _ _ hdr hlast]
    have hans : (recorder answer (HeaderNew hdr).1 (HeaderNew hdr).2
        ([] ++ hs.map HeaderNew)).1 = false := by
      simpa [recorder, yieldedFor] using hstop
    rw [if_neg (by rw [hans]; decide)]
    simp [recorder, yieldedFor, Nat.add_assoc]

/-- C17 at a concrete archive of three entries, the consumer stopping on the
second: `Next` has been called twice. -/
theorem TarReaderToHeaders_stops_with_consumer_witness :
    (TarReaderToHeaders 5 (recorder (fun seen => decide (seen.length < 2)))
        { script := scriptOf [rawHeader 48 (ascii "a") 1 0o644, rawHeader 53 (ascii "d/") 0 0o755,
            rawHeader 48 (ascii "d/b") 2 0o600] (Except.error Error.EOF), calls := 0 } []).map
        (fun p => (p.1.calls, p.2.length)) = some (2, 2) :=
  congrArg (Option.map (fun p => (p.1.calls, p.2.length)))
    (TarReaderToHeaders_stops_with_consumer [rawHeader 48 (ascii "a") 1 0o644]
      (Except.ok (rawHeader 53 (ascii "d/") 0 0o755))
      { script := scriptOf [rawHeader 48 (ascii "a") 1 0o644, rawHeader 53 (ascii "d/") 0 0o755,
          rawHeader 48 (ascii "d/b") 2 0o600] (Except.error Error.EOF), calls := 0 } 5
      (fun seen => decide (seen.length < 2))
      (by
        intro i h hi
        match i, hi with
        | 0, hi => simp at hi; subst hi; rfl
        | _ + 1, hi => simp at hi)
      rfl (by simp) (by intro j hj; simp at hj; subst hj; rfl) rfl (by decide)).1

/-! ### The command -/

/-- C18 as stated fails: on an archive whose entry has an unregistered type
code the pipeline returns `ErrInvalidTypeFlag`, `main` logs it to `os.Stderr`,
and the process exits with status 0. -/
theorem main_exits_zero_on_error :
    (pipeline marshalName
        { script := scriptOf [rawHeader 0 (ascii "a") 1 0o644] (Except.error Error.EOF),
          calls := 0 } goodSink 5 background).2 = some Error.ErrInvalidTypeFlag ∧
    (main (pipeline marshalName
        { script := scriptOf [rawHeader 0 (ascii "a") 1 0o644] (Except.error Error.EOF),
          calls := 0 } goodSink 5) [] errorText).status = 0 ∧
    (main (pipeline marshalName
        { script := scriptOf [rawHeader 0 (ascii "a") 1 0o644] (Except.error Error.EOF),
          calls := 0 } goodSink 5) [] errorText).stderr = ascii "invalid type flag\n" := by
  decide

/-- C18, amended: in every run of the command in which the pipeline returns
an error, the error's description is written, as one log line, to the
diagnostic stream and not to the record stream, which holds what the pipeline
wrote and nothing more; the process exits with status 0. -/
theorem main_logs_error (stdin2headers2stdout : context.Context → GoString × Option Error)
    (header : GoString) (text : Error → GoString) (out : GoString) (e : Error)
    (hrun : stdin2headers2stdout background = (out, some e)) :
    (main stdin2headers2stdout header text).stderr = header ++ text e ++ [10] ∧
    (main stdin2headers2stdout header text).stdout = out ∧
    (main stdin2headers2stdout header text).status = 0 := by
  simp [main, sub, hrun, log.Printf]

/-- C18, amended, at a run whose archive has one entry of unregistered type
code. -/
theorem main_logs_error_witness :
    (main (pipeline marshalName
        { script := scriptOf [rawHeader 0 (ascii "a") 1 0o644] (Except.error Error.EOF),
          calls := 0 } goodSink 5) (ascii "2026/11/04 00:00:00 ") errorText).stderr =
      ascii "2026/11/04 00:00:00 " ++ errorText Error.ErrInvalidTypeFlag ++ [10] ∧
    (main (pipeline marshalName
        { script := scriptOf [rawHeader 0 (ascii "a") 1 0o644] (Except.error Error.EOF),
          calls := 0 } goodSink 5) (ascii "2026/11/04 00:00:00 ") errorText).stdout = [] ∧
    (main (pipeline marshalName
        { script := scriptOf [rawHeader 0 (ascii "a") 1 0o644] (Except.error Error.EOF),
          calls := 0 } goodSink 5) (ascii "2026/11/04 00:00:00 ") errorText).status = 0 :=
  main_logs_error _ (ascii "2026/11/04 00:00:00 ") errorText [] Error.ErrInvalidTypeFlag
    (by decide)

/-! ### Write failures -/

/-- C19 fails on the code: over a sink on which every write fails, draining
one record returns a nil error. The record fits in the buffer of the
`bufio.Writer`, so `Encode` succeeds; the one write to the sink is made by the
deferred `bw.Flush()`, it fails, and its error is dropped. -/
theorem WriterToHeadersWriter_drops_flush_error :
    (WriterToHeadersWriter marshalName brokenSink seqOfList
        [((HeaderNew (rawHeader 48 (ascii "a") 1 0o644)).1, none)] background).map
      (fun res => (res.2.1.data, res.2.2)) = some ([], none) ∧
    (seqOfList (loopBody marshalName background)
        [((HeaderNew (rawHeader 48 (ascii "a") 1 0o644)).1, none)]
        { enc := json.NewEncoder (bufio.NewWriter brokenSink), polls := 0, ret := none }).map
      (fun p => (p.2.enc.w.buf, p.2.enc.w.Flush.1)) =
        some (ascii "\"a\"\n", some (Error.other 5)) := by
  decide

end Tar2Hdrs
